import Mathlib

/-!
Shallow embedding of the `chilo` chiller-selection application
(`src/Chilo/utils.py`, `src/Chilo/importer.py`, `src/Chilo/selector.py`,
`src/db.py`) together with theorems settling the specification claims.

Conventions of the embedding:
* Python floats are modelled as exact rationals (`ℚ`); the float NaN that
  pandas uses for missing cells is modelled as an explicit `Val.vNaN` value.
* Python `None` is `Val.vNone` / `Option.none`.
* Python dicts are association lists with unique keys in insertion order.
* SQL rows and queries of `db.py` are modelled as a `List Chiller` store and
  executable filters over it.
* Python's stable `sorted` is modelled by `List.insertionSort` (any stable
  sort computes the same function).
-/

namespace Chilo

/-! ## Basic character / string helpers shared by the embedded modules -/

/-- One character of the class `[0-9.]` used by the dimension regex. -/
def isDigitDot (c : Char) : Bool := c.isDigit || c = '.'

/-- Python `str.strip()` on a character list. -/
def pyTrimList (l : List Char) : List Char :=
  ((l.dropWhile Char.isWhitespace).reverse.dropWhile Char.isWhitespace).reverse

/-- Python `str.strip()`. -/
def pyTrim (s : String) : String := String.mk (pyTrimList s.toList)

/-- Accumulator pass behind `splitOnChar`. -/
def splitOnCharAux (sep : Char) (acc : List Char) : List Char → List String
  | [] => [String.mk acc.reverse]
  | c :: rest =>
    if c = sep then String.mk acc.reverse :: splitOnCharAux sep [] rest
    else splitOnCharAux sep (c :: acc) rest

/-- Python `str.split(sep)` for a one-character separator (keeps empty
pieces, like `String.splitOn`). -/
def splitOnChar (sep : Char) (s : String) : List String := splitOnCharAux sep [] s.toList

/-- ASCII lower-casing (`str.lower()`). -/
def pyLower (s : String) : String := String.mk (s.toList.map Char.toLower)

/-- ASCII upper-casing (`str.upper()`). -/
def pyUpper (s : String) : String := String.mk (s.toList.map Char.toUpper)

/-- `str.startswith`. -/
def strPrefixOf (p s : String) : Bool := List.isPrefixOf p.toList s.toList

/-- Numeric value of a digit string (most significant digit first). -/
def natOfDigits (l : List Char) : ℕ := l.foldl (fun n c => 10 * n + (c.toNat - 48)) 0

/-- Python `float` applied to a string made only of digits and dots
(the shape produced by the `[0-9.]+` regex groups): it succeeds exactly when
there is at most one dot and at least one digit. -/
def pyFloatOfDigitsDots (l : List Char) : Option ℚ :=
  if l.all isDigitDot && decide (l.count '.' ≤ 1) && l.any Char.isDigit then
    let intPart := l.takeWhile (fun c => c ≠ '.')
    let rest := l.dropWhile (fun c => c ≠ '.')
    match rest with
    | [] => some (natOfDigits intPart)
    | _ :: frac => some ((natOfDigits intPart : ℚ) + (natOfDigits frac : ℚ) / (10 : ℚ) ^ frac.length)
  else none

/-- Exponent part of a Python float literal (`[+-]?digits`). -/
def parseExpPart (l : List Char) : Option ℤ :=
  let core : List Char → Option ℕ := fun d =>
    if d ≠ [] && d.all Char.isDigit then some (natOfDigits d) else none
  match l with
  | '+' :: r => (core r).map fun n => (n : ℤ)
  | '-' :: r => (core r).map fun n => -(n : ℤ)
  | r => (core r).map fun n => (n : ℤ)

/-- Integer power of ten over `ℚ`, executable for negative exponents too. -/
def qPow10 (e : ℤ) : ℚ := if 0 ≤ e then (10 : ℚ) ^ e.toNat else 1 / (10 : ℚ) ^ (-e).toNat

/-- Mantissa-plus-exponent part of Python `float` on a trimmed, unsigned
string.  Exotic accepted forms (`inf`, `nan`, underscore separators) are not
modelled; no claim exercises them. -/
def pyFloatCore (l : List Char) : Option ℚ :=
  let mant := l.takeWhile (fun c => ¬(c = 'e' ∨ c = 'E'))
  let rest := l.dropWhile (fun c => ¬(c = 'e' ∨ c = 'E'))
  match rest with
  | [] => pyFloatOfDigitsDots mant
  | _ :: es =>
    match pyFloatOfDigitsDots mant, parseExpPart es with
    | some m, some e => some (m * qPow10 e)
    | _, _ => none

/-- Python `float(s)` for a string: strips surrounding whitespace, then an
optional sign, then a decimal mantissa with optional exponent. -/
def pyFloat (s : String) : Option ℚ :=
  let l := s.toList.dropWhile Char.isWhitespace
  let l := (l.reverse.dropWhile Char.isWhitespace).reverse
  match l with
  | '+' :: r => pyFloatCore r
  | '-' :: r => (pyFloatCore r).map (fun q => -q)
  | r => pyFloatCore r

/-- Accumulator pass behind `pyWords`. -/
def wordsAux (acc : List Char) : List Char → List String
  | [] => if acc = [] then [] else [String.mk acc.reverse]
  | c :: rest =>
    if c.isWhitespace then
      if acc = [] then wordsAux [] rest else String.mk acc.reverse :: wordsAux [] rest
    else wordsAux (c :: acc) rest

/-- Python `str.split()` with no argument: whitespace-delimited tokens,
empty tokens discarded (a preceding `.strip()` is a no-op for the result). -/
def pyWords (s : String) : List String := wordsAux [] s.toList

/-- Count of maximal runs of two or more consecutive whitespace characters,
i.e. `len(re.findall(r'\s{2,}', line))`.  The flag records whether the
previous character was whitespace. -/
def wsRunsAux (prevWs : Bool) : List Char → ℕ
  | [] => 0
  | c :: rest =>
    (if ¬prevWs && c.isWhitespace && (match rest with | d :: _ => d.isWhitespace | [] => false)
     then 1 else 0) + wsRunsAux c.isWhitespace rest

/-- Runs of `≥ 2` whitespace characters in a line. -/
def countWsRuns (l : List Char) : ℕ := wsRunsAux false l

/-- One pass of `re.sub(r'\s+', ' ', s)`: every whitespace run becomes a
single space. -/
def collapseWsAux (prevWs : Bool) : List Char → List Char
  | [] => []
  | c :: rest =>
    if c.isWhitespace then
      if prevWs then collapseWsAux true rest else ' ' :: collapseWsAux true rest
    else c :: collapseWsAux false rest

/-- Collapse whitespace runs to single spaces. -/
def collapseWs (l : List Char) : List Char := collapseWsAux false l

/-- `re.sub(r'\([^)]*\)', '', s)`: remove every parenthesised group that has
a closing parenthesis; the fuel bounds the number of steps (list length
suffices since every step consumes at least one character). -/
def removeParensFuel : ℕ → List Char → List Char
  | 0, l => l
  | _ + 1, [] => []
  | fuel + 1, c :: rest =>
    if c = '(' then
      match rest.dropWhile (fun x => x ≠ ')') with
      | ')' :: after => removeParensFuel fuel after
      | _ => c :: removeParensFuel fuel rest
    else c :: removeParensFuel fuel rest

/-- Remove parenthesised groups, as the header normaliser does. -/
def removeParens (l : List Char) : List Char := removeParensFuel l.length l

/-! ## Values: the scalars that can sit in a parsed table cell or record -/

/-- A Python value as it appears in the import pipeline: `None`, the float
NaN pandas uses for missing cells, a (rational-modelled) number, a string,
or a nested dict (only used for `extras_json`). -/
inductive Val where
  | vNone : Val
  | vNaN : Val
  | vNum : ℚ → Val
  | vStr : String → Val
  | vDict : List (String × Val) → Val

/-- Python truthiness of a `Val` (`bool(x)`); note that NaN is truthy. -/
def pyTruthy : Val → Bool
  | .vNone => false
  | .vNaN => true
  | .vNum q => q ≠ 0
  | .vStr s => s ≠ ""
  | .vDict l => !l.isEmpty

/-- Whether a value is Python `None` (`x is None`). -/
def isVNone : Val → Bool
  | .vNone => true
  | _ => false

/-- `pd.notna(x)`: false exactly on `None` and NaN. -/
def pdNotna : Val → Bool
  | .vNone => false
  | .vNaN => false
  | _ => true

/-- Python decimal rendering of a number; only the integral case is ever
reached by the verified claims, the remaining rendering is approximate. -/
def pyNumRepr (q : ℚ) : String :=
  if q.den = 1 then toString q.num ++ ".0" else toString q.num ++ "/" ++ toString q.den

/-- Python `str(x)` on the values the pipeline passes to it. -/
def pyStr : Val → String
  | .vNone => "None"
  | .vNaN => "nan"
  | .vNum q => pyNumRepr q
  | .vStr s => s
  | .vDict _ => "{...}"

/-- Result of a successful Python float coercion: a finite value or NaN. -/
inductive PyF where
  | nan : PyF
  | fin : ℚ → PyF

/-- A coerced float back as a stored `Val`. -/
def PyF.toVal : PyF → Val
  | .nan => .vNaN
  | .fin q => .vNum q

/-- `data.get(k)` on an association-list dict: first binding or `None`. -/
def dget (data : List (String × Val)) (k : String) : Val :=
  match data.find? (fun p => p.1 = k) with
  | some p => p.2
  | none => .vNone

/-- `data.get(k)` as an `Option`, distinguishing an absent key. -/
def dgetOpt (data : List (String × Val)) (k : String) : Option Val :=
  (data.find? (fun p => p.1 = k)).map (fun p => p.2)

/-- Whether a dict has a key (`k in data`). -/
def dhas (data : List (String × Val)) (k : String) : Bool :=
  data.any (fun p => p.1 = k)

/-- `data[k] = v` on a dict: overwrite in place, or append a new binding. -/
def dset (data : List (String × Val)) (k : String) (v : Val) : List (String × Val) :=
  if dhas data k then data.map (fun p => if p.1 = k then (k, v) else p)
  else data ++ [(k, v)]

/-! ## `src/Chilo/utils.py` -/

/-- Tail of the input after an optional whitespace run followed by the
expected literal letter — the `\s*L`, `\s*W`, `\s*H` pieces of the
dimension regex. -/
def afterGroup (expected : Char) (r : List Char) : Option (List Char) :=
  match r.dropWhile Char.isWhitespace with
  | c :: rest => if c = expected then some rest else none
  | [] => none

/-- Attempt to match `([0-9.]+)\s*L\s*([0-9.]+)\s*W\s*([0-9.]+)\s*H` at the
start of the input, returning the three groups.  The character classes
`[0-9.]`, `\s` and the literals are pairwise disjoint, so the greedy
maximal-munch scan is exactly the regex semantics. -/
def matchDimsAt (l : List Char) : Option (List Char × List Char × List Char) :=
  let g1 := l.takeWhile isDigitDot
  if g1 = [] then none else
  match afterGroup 'L' (l.dropWhile isDigitDot) with
  | none => none
  | some r2 =>
    let r3 := r2.dropWhile Char.isWhitespace
    let g2 := r3.takeWhile isDigitDot
    if g2 = [] then none else
    match afterGroup 'W' (r3.dropWhile isDigitDot) with
    | none => none
    | some r4 =>
      let r5 := r4.dropWhile Char.isWhitespace
      let g3 := r5.takeWhile isDigitDot
      if g3 = [] then none else
      match afterGroup 'H' (r5.dropWhile isDigitDot) with
      | none => none
      | some _ => some (g1, g2, g3)

/-- `re.search` for the dimension pattern: try every start position from the
left and return the first (leftmost) match. -/
def searchDims : List Char → Option (List Char × List Char × List Char)
  | [] => none
  | c :: rest =>
    match matchDimsAt (c :: rest) with
    | some g => some g
    | none => searchDims rest

/-- `utils.parse_dimensions`: extract `"<n> L <n> W <n> H"` from a string;
any failure (no match, or `float` failing on a group) yields three `None`s. -/
def parse_dimensions (s : String) : Option ℚ × Option ℚ × Option ℚ :=
  if s = "" then (none, none, none)
  else
    match searchDims s.toList with
    | none => (none, none, none)
    | some (g1, g2, g3) =>
      match pyFloatOfDigitsDots g1, pyFloatOfDigitsDots g2, pyFloatOfDigitsDots g3 with
      | some a, some b, some c => (some a, some b, some c)
      | _, _, _ => (none, none, none)

/-- `utils.parse_pressure_drop`: split `"psi/ftwg"` on `/` into exactly two
floats; any other shape yields `(None, None)`. -/
def parse_pressure_drop (s : String) : Option ℚ × Option ℚ :=
  if s = "" then (none, none)
  else
    match splitOnChar '/' s with
    | [a, b] =>
      match pyFloat (pyTrim a), pyFloat (pyTrim b) with
      | some psi, some ftwg => (some psi, some ftwg)
      | _, _ => (none, none)
    | _ => (none, none)

/-- `utils.safe_float`: `None` for `None` / `''` / `'N/A'` / unparsable
values, otherwise the `float` coercion (NaN stays NaN). -/
def safe_float (v : Val) : Option PyF :=
  match v with
  | .vNone => none
  | .vStr "" => none
  | .vStr "N/A" => none
  | .vNum q => some (.fin q)
  | .vNaN => some .nan
  | .vStr s => (pyFloat s).map .fin
  | .vDict _ => none

/-- The synonym table of `utils.normalize_header`. -/
def headerVariations : List (String × String) :=
  [("energy efficiency (kw/ton)", "energy efficiency"),
   ("energy efficiency", "efficiency_kw_per_ton"),
   ("efficiency", "efficiency_kw_per_ton"),
   ("iplv (kw/ton)", "iplv_kw_per_ton"),
   ("iplv", "iplv_kw_per_ton"),
   ("usgpm", "waterflow_usgpm"),
   ("waterflow", "waterflow_usgpm"),
   ("u. kw", "unit_kw"),
   ("c. kw", "compressor_kw"),
   ("f. kw", "fan_kw"),
   ("psi/ft.w.g", "pressure_drop"),
   ("mca", "mca_amps"),
   ("dimensions", "dimensions")]

/-- `utils.normalize_header`: lowercase, strip, drop parenthesised text,
collapse whitespace, then look the result up in the synonym table. -/
def normalize_header (h : String) : String :=
  if h = "" then ""
  else
    let n := pyTrim (pyLower h)
    let n := String.mk (removeParens n.toList)
    let n := pyTrim (String.mk (collapseWs n.toList))
    match headerVariations.find? (fun p => p.1 = n) with
    | some p => p.2
    | none => n

/-- The manufacturer prefix table of `utils.extract_manufacturer_from_model`,
in dict insertion order (first match wins). -/
def manufacturerPrefixes : List (String × String) :=
  [("ACHX", "Dunham Bush"), ("AVX", "Dunham Bush"), ("CH", "Carrier"),
   ("TRA", "Trane"), ("RT", "Trane"), ("YORK", "York"), ("YV", "York"),
   ("MC", "McQuay"), ("MCH", "McQuay")]

/-- `utils.extract_manufacturer_from_model`: first table entry whose key is
a prefix of the upper-cased model. -/
def extract_manufacturer_from_model (model : String) : Option String :=
  if model = "" then none
  else
    match manufacturerPrefixes.find? (fun p => strPrefixOf p.1 (pyUpper model)) with
    | some p => some p.2
    | none => none

/-- The leading `[A-Za-z-]+` run of a string (`re.match(r'^([A-Za-z\-]+)')`),
or `none` when the string does not start with a letter or hyphen. -/
def leadingAlphaHyphen (s : String) : Option String :=
  let run := s.toList.takeWhile (fun c => c.isAlpha || c = '-')
  if run = [] then none else some (String.mk run)

/-- `utils.extract_model_prefix`: `None` for empty / whitespace-only input;
otherwise the first whitespace token when it contains a letter or hyphen,
else the leading letter/hyphen run of the raw string, else the first token.
(Python's Unicode `isalpha` is modelled as ASCII `isAlpha`.) -/
def extract_model_prefix (model : String) : Option String :=
  if model = "" then none
  else
    match pyWords model with
    | [] => none
    | first :: _ =>
      if first.toList.any (fun c => c.isAlpha || c = '-') then some first
      else
        match leadingAlphaHyphen model with
        | some p => some p
        | none => some first

/-- The numeric fields of `utils.validate_chiller_data` with their display
names, in dict insertion order. -/
def numeric_fields : List (String × String) :=
  [("capacity_tons", "Capacity (tons)"),
   ("efficiency_kw_per_ton", "Energy efficiency"),
   ("iplv_kw_per_ton", "IPLV"),
   ("waterflow_usgpm", "Waterflow"),
   ("unit_kw", "Unit kW"),
   ("compressor_kw", "Compressor kW"),
   ("fan_kw", "Fan kW"),
   ("mca_amps", "MCA"),
   ("ambient_f", "Ambient"),
   ("ewt_c", "EWT"),
   ("lwt_c", "LWT")]

/-- The text fields of `utils.validate_chiller_data`, in list order. -/
def text_fields : List String :=
  ["model", "manufacturer", "refrigerant", "notes", "folder_name", "model_prefix"]

/-- One step of the numeric-field loop of `validate_chiller_data`. -/
def numStep (data : List (String × Val)) (acc : List (String × Val) × List String)
    (f : String × String) : List (String × Val) × List String :=
  match safe_float (dget data f.1) with
  | some pf => (dset acc.1 f.1 pf.toVal, acc.2)
  | none =>
    if f.1 = "capacity_tons" ∨ f.1 = "efficiency_kw_per_ton" then
      (acc.1, acc.2 ++ [f.2 ++ " is required"])
    else acc

/-- One step of the text-field loop of `validate_chiller_data`. -/
def textStep (data : List (String × Val)) (acc : List (String × Val) × List String)
    (f : String) : List (String × Val) × List String :=
  let v := dget data f
  if pyTruthy v then (dset acc.1 f (.vStr (pyTrim (pyStr v))), acc.2) else acc

/-- `parse_dimensions(value)` as called on a raw dict value: the
`isinstance(str)` guard makes every non-string input produce three `None`s. -/
def parseDimsVal : Val → Option ℚ × Option ℚ × Option ℚ
  | .vStr s => parse_dimensions s
  | _ => (none, none, none)

/-- `parse_pressure_drop(value)` on a raw dict value (same guard). -/
def parsePressureVal : Val → Option ℚ × Option ℚ
  | .vStr s => parse_pressure_drop s
  | _ => (none, none)

/-- Optionally store a parsed sub-field. -/
def dsetOpt (m : List (String × Val)) (k : String) : Option ℚ → List (String × Val)
  | some q => dset m k (.vNum q)
  | none => m

/-- `utils.validate_chiller_data`: clean a raw record dict into the stored
record plus its list of validation error strings. -/
def validate_chiller_data (data : List (String × Val)) :
    List (String × Val) × List String :=
  let errors0 : List String := if pyTruthy (dget data "model") then [] else ["Model is required"]
  let acc1 := numeric_fields.foldl (numStep data) ([], errors0)
  let acc2 := text_fields.foldl (textStep data) acc1
  let cleaned2 := acc2.1
  let cleaned3 :=
    if dhas data "dimensions" then
      let d := parseDimsVal (dget data "dimensions")
      dsetOpt (dsetOpt (dsetOpt cleaned2 "length_in" d.1) "width_in" d.2.1) "height_in" d.2.2
    else cleaned2
  let cleaned4 :=
    if dhas data "pressure_drop" then
      let d := parsePressureVal (dget data "pressure_drop")
      dsetOpt (dsetOpt cleaned3 "pressure_drop_psi" d.1) "pressure_drop_ftwg" d.2
    else cleaned3
  let cleaned5 :=
    if ¬pyTruthy (dget cleaned4 "manufacturer") && pyTruthy (dget cleaned4 "model") then
      match extract_manufacturer_from_model (pyStr (dget cleaned4 "model")) with
      | some m => dset cleaned4 "manufacturer" (.vStr m)
      | none => cleaned4
    else cleaned4
  let extras := data.filter
    (fun p => ¬dhas cleaned5 p.1 && p.1 ≠ "dimensions" && p.1 ≠ "pressure_drop" && ¬isVNone p.2)
  let cleaned6 := if extras.isEmpty then cleaned5 else cleaned5 ++ [("extras_json", .vDict extras)]
  (cleaned6, acc2.2)

/-! ## `src/Chilo/importer.py` -/

/-- The three delimiter kinds `detect_delimiter` can return
(`'\t'`, `','`, and the regex `r'\s{2,}'`). -/
inductive Delim where
  | tab : Delim
  | comma : Delim
  | spaces : Delim
deriving DecidableEq

/-- Tab characters in the first three stripped lines. -/
def tabCount3 (text : String) : ℕ :=
  ((((splitOnChar '\n' (pyTrim text))).take 3).map (fun l => l.toList.count '\t')).sum

/-- Comma characters in the first three stripped lines. -/
def commaCount3 (text : String) : ℕ :=
  ((((splitOnChar '\n' (pyTrim text))).take 3).map (fun l => l.toList.count ',')).sum

/-- Runs of `≥ 2` whitespace characters in the first three stripped lines. -/
def spaceRuns3 (text : String) : ℕ :=
  ((((splitOnChar '\n' (pyTrim text))).take 3).map (fun l => countWsRuns l.toList)).sum

/-- `importer.detect_delimiter`: count tabs, commas and multi-space runs in
the first three lines and choose by the source's comparison chain. -/
def detect_delimiter (text : String) : Delim :=
  if (splitOnChar '\n' (pyTrim text)) = [] then .tab
  else
    let t := tabCount3 text
    let c := commaCount3 text
    let s := spaceRuns3 text
    if t > c ∧ t > s then .tab
    else if c > s then .comma
    else .spaces

/-- A parsed table: column names plus rows of cells (a pandas `DataFrame`
restricted to what the importer reads from it). -/
structure DF where
  cols : List String
  rows : List (List Val)

/-- Pandas cell reading: empty cells are NaN, numeric-looking cells are
numbers, everything else stays a string.  (Pandas infers dtypes per column;
on the uniformly-typed tables of the claims this per-cell model agrees.) -/
def parseCell (s : String) : Val :=
  if s = "" then .vNaN
  else
    match pyFloat s with
    | some q => .vNum q
    | none => .vStr s

/-- Split one line into raw cell strings for a delimiter kind (the
`pd.read_csv(..., sep=...)` tokenizer, without quoting, which the claims'
inputs do not use; `sep=r'\s+'` splits on whitespace runs). -/
def splitLine (d : Delim) (l : String) : List String :=
  match d with
  | .tab => splitOnChar '\t' l
  | .comma => splitOnChar ',' l
  | .spaces => pyWords l

/-- Pad or truncate a row to the header width (missing cells become NaN). -/
def fitRow (n : ℕ) (row : List Val) : List Val :=
  (row ++ List.replicate (n - row.length) Val.vNaN).take n

/-- `pd.read_csv(StringIO(text), sep=...)`: first non-blank line is the
header, remaining non-blank lines are data rows. -/
def readTable (text : String) (d : Delim) : DF :=
  match (splitOnChar '\n' text).filter (fun l => pyTrim l ≠ "") with
  | [] => ⟨[], []⟩
  | h :: rest =>
    let headers := splitLine d h
    ⟨headers, rest.map (fun l => fitRow headers.length ((splitLine d l).map parseCell))⟩

/-- Whether a `DataFrame` is empty (`df.empty`: either axis has length 0). -/
def dfEmpty (df : DF) : Bool := df.rows.isEmpty || df.cols.isEmpty

/-- The known-column renaming table of `parse_table_text`. -/
def column_mapping : List (String × String) :=
  [("model", "model"),
   ("tons", "capacity_tons"),
   ("efficiency_kw_per_ton", "efficiency_kw_per_ton"),
   ("iplv_kw_per_ton", "iplv_kw_per_ton"),
   ("waterflow_usgpm", "waterflow_usgpm"),
   ("unit_kw", "unit_kw"),
   ("compressor_kw", "compressor_kw"),
   ("fan_kw", "fan_kw"),
   ("pressure_drop", "pressure_drop"),
   ("mca_amps", "mca_amps"),
   ("dimensions", "dimensions")]

/-- Rename a normalized header to its canonical field, keeping the original
text for unmapped columns. -/
def renameHeader (orig : String) : String :=
  match column_mapping.find? (fun p => p.1 = normalize_header orig) with
  | some p => p.2
  | none => orig

/-- `df[name] = constant`: overwrite an existing column or append one. -/
def dfSetConst (df : DF) (name : String) (v : Val) : DF :=
  if df.cols.contains name then
    ⟨df.cols, df.rows.map (fun row => (df.cols.zip row).map (fun p => if p.1 = name then v else p.2))⟩
  else ⟨df.cols ++ [name], df.rows.map (fun row => row ++ [v])⟩

/-- `df[name] = f(row)`: a derived column computed from each row's dict. -/
def dfSetFn (df : DF) (name : String) (f : List (String × Val) → Val) : DF :=
  if df.cols.contains name then
    ⟨df.cols, df.rows.map (fun row =>
      let v := f (df.cols.zip row)
      (df.cols.zip row).map (fun p => if p.1 = name then v else p.2))⟩
  else ⟨df.cols ++ [name], df.rows.map (fun row => row ++ [f (df.cols.zip row)])⟩

/-- `df[sel]`: project a frame onto the named columns, in that order. -/
def dfSelect (df : DF) (sel : List String) : DF :=
  ⟨sel, df.rows.map (fun row =>
    let d := df.cols.zip row
    sel.map (fun c => (dgetOpt d c).getD .vNaN))⟩

/-- An `Option` result as a cell value (`None` stays `None`). -/
def optToVal : Option ℚ → Val
  | some q => .vNum q
  | none => .vNone

/-- The per-row model-prefix derivation of `parse_table_text`. -/
def modelPrefixCell (rowd : List (String × Val)) : Val :=
  let x := dget rowd "model"
  if pdNotna x then
    match extract_model_prefix (pyStr x) with
    | some p => .vStr p
    | none => .vNone
  else .vNone

/-- `importer.parse_special_fields`: decode the composite `dimensions` and
`pressure_drop` columns into numeric sub-field columns (the `errors` list is
threaded through unchanged by the source, so it is omitted here). -/
def parse_special_fields (df : DF) : DF :=
  let df1 :=
    if df.cols.contains "dimensions" then
      let dims := fun (rowd : List (String × Val)) =>
        let x := dget rowd "dimensions"
        if pdNotna x then parse_dimensions (pyStr x) else (none, none, none)
      let dfA := dfSetFn df "length_in" (fun r => optToVal (dims r).1)
      let dfB := dfSetFn dfA "width_in" (fun r => optToVal (dims r).2.1)
      dfSetFn dfB "height_in" (fun r => optToVal (dims r).2.2)
    else df
  if df1.cols.contains "pressure_drop" then
    let pres := fun (rowd : List (String × Val)) =>
      let x := dget rowd "pressure_drop"
      if pdNotna x then parse_pressure_drop (pyStr x) else (none, none)
    let dfA := dfSetFn df1 "pressure_drop_psi" (fun r => optToVal (pres r).1)
    dfSetFn dfA "pressure_drop_ftwg" (fun r => optToVal (pres r).2)
  else df1

/-- The derived folder label: `"<ambient>°F <EWT>°C/<LWT>°C"`, `"<ambient>°F"`
or `"Unknown"`, exactly as the source's conditional chain. -/
def folderName (ambient_f : Option ℤ) (ewt_c lwt_c : Option ℚ) : String :=
  match ambient_f, ewt_c, lwt_c with
  | some a, some e, some l => toString a ++ "°F " ++ pyNumRepr e ++ "°C/" ++ pyNumRepr l ++ "°C"
  | some a, _, _ => toString a ++ "°F"
  | none, _, _ => "Unknown"

/-- Union of record keys in first-appearance order: the columns
`pd.DataFrame(list_of_dicts)` produces. -/
def unionKeys (records : List (List (String × Val))) : List String :=
  records.foldl (fun acc r => acc ++ ((r.map Prod.fst).filter (fun k => ¬acc.contains k))) []

/-- `importer.parse_table_text`: detect the delimiter, read the table, map
headers, add batch columns, derive `folder_name` / `model_prefix`, decode
composite fields, validate each row, and re-assemble the result frame
restricted to the columns of the pre-validation frame. -/
def parse_table_text (text : String) (ambient_f : Option ℤ) (ewt_c lwt_c : Option ℚ) :
    DF × List String :=
  if pyTrim text = "" then (⟨[], []⟩, ["No data provided"])
  else
    let delim := detect_delimiter text
    let df := readTable text delim
    if dfEmpty df then (df, ["No data could be parsed from the input"])
    else
      let df := { df with cols := df.cols.map renameHeader }
      let df := match ambient_f with
        | some a => dfSetConst df "ambient_f" (.vNum a)
        | none => df
      let df := match ewt_c with
        | some e => dfSetConst df "ewt_c" (.vNum e)
        | none => df
      let df := match lwt_c with
        | some l => dfSetConst df "lwt_c" (.vNum l)
        | none => df
      let df := dfSetConst df "folder_name" (.vStr (folderName ambient_f ewt_c lwt_c))
      let df :=
        if df.cols.contains "model" then dfSetFn df "model_prefix" modelPrefixCell
        else dfSetConst df "model_prefix" .vNone
      let df := parse_special_fields df
      let df :=
        if df.cols.contains "model" then dfSelect df ("model" :: df.cols.filter (fun c => c ≠ "model"))
        else df
      let validated := df.rows.map (fun row => validate_chiller_data (df.cols.zip row))
      let errors := (validated.map Prod.snd).enum.flatMap
        (fun p => p.2.map (fun e => "Row " ++ toString (p.1 + 1) ++ ": " ++ e))
      let cleanedRows := validated.map Prod.fst
      if cleanedRows.isEmpty then (⟨[], []⟩, errors)
      else
        let resultCols := unionKeys cleanedRows
        if df.rows.isEmpty then
          (⟨resultCols, cleanedRows.map (fun r => resultCols.map (fun k => (dgetOpt r k).getD .vNaN))⟩,
           errors)
        else
          let available := df.cols.filter (fun c => resultCols.contains c)
          (⟨available, cleanedRows.map (fun r => available.map (fun k => (dgetOpt r k).getD .vNaN))⟩,
           errors)

/-! ## `src/db.py` (import side) -/

/-- `db.batch_insert_chillers` as seen by the importer: the `chillers` table
declares `model TEXT NOT NULL`, so inserting any record whose `model` is
absent (or `None`/NaN, which sqlite stores as NULL) raises an
`IntegrityError`; otherwise the batch succeeds. -/
def batch_insert_chillers (batch : List (List (String × Val))) : Except String Unit :=
  if batch.all (fun r => r.any (fun p => p.1 = "model" && pdNotna p.2)) then .ok ()
  else .error "NOT NULL constraint failed: chillers.model"

/-- Fixed-size chunking of the record list (`batch_size = 50`), with fuel
bounded by the list length. -/
def chunksAux (n : ℕ) : ℕ → List α → List (List α)
  | 0, _ => []
  | _ + 1, [] => []
  | fuel + 1, l => l.take n :: chunksAux n fuel (l.drop n)

/-- Split a list into chunks of `n`. -/
def chunks (n : ℕ) (l : List α) : List (List α) := chunksAux n l.length l

/-- `importer.import_chillers_from_dataframe`: re-validate every record,
report validation messages, insert batch-wise, and count every record of
each successfully inserted batch. -/
def import_chillers_from_dataframe (df : DF) : ℕ × List String :=
  if dfEmpty df then (0, ["No data to import"])
  else
    let records := df.rows.map (fun row => df.cols.zip row)
    let step := fun (acc : ℕ × List String × ℕ) (batch : List (List (String × Val))) =>
      let validated := batch.map validate_chiller_data
      let verrs := (validated.map Prod.snd).flatMap
        (fun es => es.map (fun e => "Record validation error: " ++ e))
      let cleaned_batch := validated.map Prod.fst
      if cleaned_batch.isEmpty then
        (acc.1, acc.2.1 ++ verrs ++ ["No valid records in batch " ++ toString (acc.2.2 + 1)],
         acc.2.2 + 1)
      else
        match batch_insert_chillers cleaned_batch with
        | .ok _ => (acc.1 + cleaned_batch.length, acc.2.1 ++ verrs, acc.2.2 + 1)
        | .error e =>
          (acc.1, acc.2.1 ++ verrs ++ ["Error importing batch " ++ toString (acc.2.2 + 1) ++ ": " ++ e],
           acc.2.2 + 1)
    let out := (chunks 50 records).foldl step (0, [], 0)
    (out.1, out.2.1)

/-! ## `src/db.py` (query side) and `src/Chilo/selector.py`

A stored chiller row, restricted to the columns the selection engine reads
(`SELECT *` also returns the descriptive columns — model, notes, … — which
selection never inspects; they are irrelevant to the claims and omitted). -/
structure Chiller where
  id : ℕ
  model : String
  capacity_tons : Option ℚ
  ambient_f : Option ℤ
  ewt_c : Option ℚ
  lwt_c : Option ℚ
  efficiency_kw_per_ton : Option ℚ
  waterflow_usgpm : Option ℚ
deriving DecidableEq

/-- `db.get_chillers_by_criteria`: rows whose `ambient_f` equals the target,
whose `capacity_tons` lies in the inclusive tolerance band, and whose
`ewt_c`/`lwt_c` equal the targets when those are supplied (SQL `=` is false
on NULL, so a NULL column never matches). -/
def get_chillers_by_criteria (store : List Chiller) (capacity_tons : ℚ) (ambient_f : ℤ)
    (ewt_c lwt_c : Option ℚ) (capacity_tolerance : ℚ) : List Chiller :=
  store.filter fun c =>
    decide (c.ambient_f = some ambient_f) &&
    (match c.capacity_tons with
     | some ct => decide (capacity_tons * (1 - capacity_tolerance) ≤ ct ∧
         ct ≤ capacity_tons * (1 + capacity_tolerance))
     | none => false) &&
    (match ewt_c with
     | some e => decide (c.ewt_c = some e)
     | none => true) &&
    (match lwt_c with
     | some l => decide (c.lwt_c = some l)
     | none => true)

/-- `db.get_available_ambients`: `SELECT DISTINCT ambient_f … WHERE ambient_f
IS NOT NULL ORDER BY ambient_f`. -/
def get_available_ambients (store : List Chiller) : List ℤ :=
  ((store.filterMap (fun c => c.ambient_f)).dedup).insertionSort (fun a b => a ≤ b)

/-- `ChillerSelector.capacity_tolerance_levels = [0.10, 0.125, 0.15, 0.175, 0.20]`. -/
def capacity_tolerance_levels : List ℚ := [1/10, 1/8, 3/20, 7/40, 1/5]

/-- The search metadata dictionary built by
`_find_candidates_with_tolerance`. -/
structure SearchInfo where
  capacity_tons : ℚ
  ambient_f : ℤ
  ewt_c : Option ℚ
  lwt_c : Option ℚ
  tolerance_used : ℚ
  tolerance_percent : ℚ
  capacity_range : ℚ × ℚ
  candidates_found : ℕ
deriving DecidableEq

/-- The widening loop of `_find_candidates_with_tolerance` over a list of
tolerance levels; the base case is the source's fallthrough, which reports
the last level (`0.20`) and the literal `0.8`/`1.2` band. -/
def findWithTolAux (store : List Chiller) (cap : ℚ) (amb : ℤ) (ewt lwt : Option ℚ) :
    List ℚ → List Chiller × ℚ × SearchInfo
  | [] =>
    ([], 1/5, ⟨cap, amb, ewt, lwt, 1/5, 20, (cap * (4/5), cap * (6/5)), 0⟩)
  | tol :: rest =>
    let candidates := get_chillers_by_criteria store cap amb ewt lwt tol
    if candidates.isEmpty then findWithTolAux store cap amb ewt lwt rest
    else
      (candidates, tol,
       ⟨cap, amb, ewt, lwt, tol, tol * 100, (cap * (1 - tol), cap * (1 + tol)), candidates.length⟩)

/-- `ChillerSelector._find_candidates_with_tolerance`. -/
def find_candidates_with_tolerance (store : List Chiller) (cap : ℚ) (amb : ℤ)
    (ewt lwt : Option ℚ) : List Chiller × ℚ × SearchInfo :=
  findWithTolAux store cap amb ewt lwt capacity_tolerance_levels

/-- `abs(chiller.get('capacity_tons', 0) - capacity_tons)`; candidates coming
from the store query always carry a capacity, the `0` default models the
dict-access default. -/
def capDelta (cap : ℚ) (c : Chiller) : ℚ := |c.capacity_tons.getD 0 - cap|

/-- The temperature score: absolute EWT/LWT deviations summed over the
dimensions where both a target and a candidate value exist. -/
def tempScore (ewt lwt : Option ℚ) (c : Chiller) : ℚ :=
  (match ewt, c.ewt_c with
   | some e, some ce => |ce - e|
   | _, _ => 0) +
  (match lwt, c.lwt_c with
   | some l, some cl => |cl - l|
   | _, _ => 0)

/-- Efficiency sort key: `float('inf')` for a missing efficiency. -/
def effKey (c : Chiller) : WithTop ℚ :=
  match c.efficiency_kw_per_ton with
  | some q => (q : WithTop ℚ)
  | none => ⊤

/-- Negated waterflow sort key (missing waterflow counts as `0`). -/
def negWaterflow (c : Chiller) : ℚ := -(c.waterflow_usgpm.getD 0)

/-- Lexicographic refinement of a relation by a sort key. -/
def lexLe {α : Type} {γ : Type} [LinearOrder γ] (f : α → γ) (r : α → α → Prop)
    (a b : α) : Prop :=
  f a < f b ∨ (f a = f b ∧ r a b)

instance {α γ : Type} [LinearOrder γ] (f : α → γ) (r : α → α → Prop) [DecidableRel r] :
    DecidableRel (lexLe f r) := fun a b => by unfold lexLe; infer_instance

/-- The ranking comparison of `_rank_candidates`: ascending by the tuple
`(cap_delta, temp_score, efficiency, -waterflow)`. -/
def rankLe (cap : ℚ) (ewt lwt : Option ℚ) : Chiller → Chiller → Prop :=
  lexLe (capDelta cap)
    (lexLe (tempScore ewt lwt)
      (lexLe effKey (fun a b => negWaterflow a ≤ negWaterflow b)))

instance (cap : ℚ) (ewt lwt : Option ℚ) : DecidableRel (rankLe cap ewt lwt) :=
  fun a b => by unfold rankLe lexLe; infer_instance

/-- A ranked candidate: the chiller plus the `_rank` / `_cap_delta` /
`_temp_score` annotations the source attaches to each dict. -/
structure RankedChiller where
  chiller : Chiller
  rank : ℕ
  cap_delta : ℚ
  temp_score : ℚ
deriving DecidableEq

/-- `ChillerSelector._rank_candidates`: Python's stable `sorted` by the
ranking tuple (modelled by insertion sort, which computes the same stable
sort), then ranks `1..N` and the display annotations. -/
def rank_candidates (candidates : List Chiller) (cap : ℚ) (ewt lwt : Option ℚ) :
    List RankedChiller :=
  ((candidates.insertionSort (rankLe cap ewt lwt)).enum).map
    (fun p => ⟨p.2, p.1 + 1, capDelta cap p.2, tempScore ewt lwt p.2⟩)

/-- `ChillerSelector._select_best_3_options`: the head of the ranking, then
the first ranked candidate strictly above it in capacity and the first ranked
candidate strictly below it, capped at three. -/
def select_best_3_options (ranked : List RankedChiller) : List RankedChiller :=
  match ranked with
  | [] => []
  | best :: rest =>
    let bestCap := best.chiller.capacity_tons.getD 0
    let above := rest.filter (fun c => decide (bestCap < c.chiller.capacity_tons.getD 0))
    let below := rest.filter (fun c => decide (c.chiller.capacity_tons.getD 0 < bestCap))
    (best :: (above.head?.toList ++ below.head?.toList)).take 3

/-- One fallback group of `_try_fallback_ambients`. -/
structure FallbackGroup where
  ambient_f : ℤ
  candidates : List Chiller
  tolerance_used : ℚ
  count : ℕ
deriving DecidableEq

/-- `ChillerSelector._try_fallback_ambients`: repeat the widening search at
every distinct stored ambient, keeping the ambients that produce candidates. -/
def try_fallback_ambients (store : List Chiller) (cap : ℚ) (ewt lwt : Option ℚ) :
    List FallbackGroup :=
  (get_available_ambients store).filterMap fun amb =>
    let r := find_candidates_with_tolerance store cap amb ewt lwt
    if r.1.isEmpty then none else some ⟨amb, r.1, r.2.1, r.1.length⟩

/-- The result dictionary of `find_best_chillers`; the heterogeneous Python
field `fallback_available` (`False`, or a list of groups) is an `Option`. -/
structure SelectionResult where
  best_option : Option RankedChiller
  alternatives : List RankedChiller
  all_matches : List RankedChiller
  search_info : SearchInfo
  fallback_available : Option (List FallbackGroup)
  no_matches : Bool
deriving DecidableEq

/-- `ChillerSelector.find_best_chillers`. -/
def find_best_chillers (store : List Chiller) (cap : ℚ) (amb : ℤ) (ewt lwt : Option ℚ) :
    SelectionResult :=
  let r := find_candidates_with_tolerance store cap amb ewt lwt
  if r.1.isEmpty then
    { best_option := none, alternatives := [], all_matches := [], search_info := r.2.2,
      fallback_available := some (try_fallback_ambients store cap ewt lwt), no_matches := true }
  else
    let ranked := rank_candidates r.1 cap ewt lwt
    if ranked.isEmpty then
      { best_option := none, alternatives := [], all_matches := [], search_info := r.2.2,
        fallback_available := none, no_matches := true }
    else
      let best_options := select_best_3_options ranked
      { best_option := best_options.head?, alternatives := (best_options.drop 1).take 2,
        all_matches := ranked, search_info := r.2.2, fallback_available := none,
        no_matches := false }

/-! ## Theorems -/

/-- Splitting a string on a separator always yields at least one piece. -/
theorem splitOnCharAux_ne_nil (sep : Char) :
    ∀ (l : List Char) (acc : List Char), splitOnCharAux sep acc l ≠ []
  | [], acc => by simp [splitOnCharAux]
  | c :: rest, acc => by
    unfold splitOnCharAux
    by_cases h : c = sep
    · simp [h]
    · simpa [h] using splitOnCharAux_ne_nil sep rest (c :: acc)

/-- C6 (counterexample).  The claim says delimiter-count ties break in the
order tab over comma over multi-space.  On `"a,b\tc"` the tab count and the
comma count are both `1` (and there is no multi-space run), yet
`detect_delimiter` returns the comma delimiter, not tab: the source's
`tab_count > comma_count` test is strict, so a tab–comma tie goes to comma. -/
theorem detect_delimiter_tie_counterexample :
    tabCount3 "a,b\tc" = 1 ∧ commaCount3 "a,b\tc" = 1 ∧ spaceRuns3 "a,b\tc" = 0 ∧
    detect_delimiter "a,b\tc" = Delim.comma ∧ Delim.comma ≠ Delim.tab := by
  refine ⟨by decide, by decide, by decide, by decide, by decide⟩

/-- C6 (amended).  `detect_delimiter` samples the first three lines, counts
tab occurrences, comma occurrences and runs of `≥ 2` consecutive whitespace
characters, and picks: tab when tabs strictly outnumber both other counts;
otherwise comma when commas strictly outnumber multi-space runs; otherwise
the multi-space delimiter (so a tab–comma tie goes to comma and a
comma–space tie to multi-space).  In particular `"a\tb\tc\n1\t2\t3"`
detects tab and `"a,b,c\n1,2,3"` detects comma. -/
theorem detect_delimiter_spec (text : String) :
    (tabCount3 text > commaCount3 text ∧ tabCount3 text > spaceRuns3 text →
      detect_delimiter text = Delim.tab)
  ∧ (¬(tabCount3 text > commaCount3 text ∧ tabCount3 text > spaceRuns3 text) →
      commaCount3 text > spaceRuns3 text → detect_delimiter text = Delim.comma)
  ∧ (¬(tabCount3 text > commaCount3 text ∧ tabCount3 text > spaceRuns3 text) →
      ¬(commaCount3 text > spaceRuns3 text) → detect_delimiter text = Delim.spaces)
  ∧ detect_delimiter "a\tb\tc\n1\t2\t3" = Delim.tab
  ∧ detect_delimiter "a,b,c\n1,2,3" = Delim.comma := by
  have hd : detect_delimiter text =
      (if tabCount3 text > commaCount3 text ∧ tabCount3 text > spaceRuns3 text then Delim.tab
       else if commaCount3 text > spaceRuns3 text then Delim.comma else Delim.spaces) := by
    unfold detect_delimiter
    rw [if_neg (show ¬(splitOnChar '\n' (pyTrim text) = []) from
      splitOnCharAux_ne_nil '\n' (pyTrim text).toList [])]
  refine ⟨fun h => ?_, fun h h2 => ?_, fun h h2 => ?_, by decide, by decide⟩
  · rw [hd, if_pos h]
  · rw [hd, if_neg h, if_pos h2]
  · rw [hd, if_neg h, if_neg h2]

/-- C6 (witness): the amended tie-break applied at a concrete input. -/
theorem detect_delimiter_spec_witness : detect_delimiter "x\ty\tz" = Delim.tab :=
  (detect_delimiter_spec "x\ty\tz").1 (by decide)

/-- With a non-empty current token, the splitter emits that token extended
by the next non-whitespace run, then continues after it. -/
theorem wordsAux_token :
    ∀ (l acc : List Char), acc ≠ [] →
      wordsAux acc l =
        String.mk (acc.reverse ++ l.takeWhile (fun c => !c.isWhitespace)) ::
          wordsAux [] (l.dropWhile (fun c => !c.isWhitespace))
  | [], acc, h => by simp [wordsAux, h]
  | c :: rest, acc, h => by
    by_cases hw : c.isWhitespace
    · simp [wordsAux, h, hw, List.takeWhile_cons, List.dropWhile_cons]
    · have := wordsAux_token rest (c :: acc) (by simp)
      simp only [wordsAux, hw, if_false, if_neg (by simp : ¬(c :: acc = []))] at this ⊢
      rw [this]
      simp [List.takeWhile_cons, List.dropWhile_cons, hw]

/-- Leading whitespace is skipped by the splitter. -/
theorem wordsAux_nil_of_dropWhile_nil (l : List Char)
    (h : l.dropWhile Char.isWhitespace = []) : wordsAux [] l = [] := by
  induction l with
  | nil => rfl
  | cons c rest ih =>
    by_cases hw : c.isWhitespace
    · rw [List.dropWhile_cons, if_pos hw] at h
      simpa [wordsAux, hw] using ih h
    · rw [List.dropWhile_cons, if_neg hw] at h
      exact absurd h (by simp)

/-- The first token of `str.split()` is the first maximal non-whitespace run. -/
theorem wordsAux_nil_of_dropWhile_cons (l : List Char) (c : Char) (r : List Char)
    (h : l.dropWhile Char.isWhitespace = c :: r) :
    wordsAux [] l =
      String.mk (c :: r.takeWhile (fun x => !x.isWhitespace)) ::
        wordsAux [] (r.dropWhile (fun x => !x.isWhitespace)) := by
  induction l with
  | nil => simp at h
  | cons a rest ih =>
    by_cases hw : a.isWhitespace
    · rw [List.dropWhile_cons, if_pos hw] at h
      simpa [wordsAux, hw] using ih h
    · rw [List.dropWhile_cons, if_neg hw] at h
      injection h with h1 h2
      subst h1; subst h2
      rw [show wordsAux [] (a :: rest) = wordsAux [a] rest from by simp [wordsAux, hw]]
      rw [wordsAux_token rest [a] (by simp)]
      simp

/-- A whitespace character is neither a letter nor a hyphen. -/
theorem ws_not_alphaHyphen (c : Char) (h : c.isWhitespace = true) :
    (c.isAlpha || c = '-') = false := by
  simp only [Char.isWhitespace, decide_eq_true_eq, Bool.or_eq_true] at h
  rcases h with ((h | h) | h) | h <;> subst h <;> decide

/-- C8 (counterexample).  The claim says the result is the leading run of
letters and hyphens, ending at the first digit — which on `"ACHX-B90S"`
would be `"ACHX-B"`.  The source returns the whole first whitespace token
whenever it contains any letter or hyphen, so it returns `"ACHX-B90S"`. -/
theorem extract_model_prefix_counterexample :
    extract_model_prefix "ACHX-B90S" = some "ACHX-B90S" ∧
    (some "ACHX-B90S" : Option String) ≠ some "ACHX-B" := by
  exact ⟨by decide, by decide⟩

/-- C8 (amended).  `extract_model_prefix` returns the first
whitespace-delimited token of the model for every model with one (the
leading letter/hyphen-run fallback is unreachable: when the first token has
no letter and no hyphen the string cannot start with one), and `none` for
empty or whitespace-only input; in particular
`extract_model_prefix "ACHX-B 90S" = "ACHX-B"` and
`extract_model_prefix "120T" = "120T"`. -/
theorem extract_model_prefix_spec :
    (∀ m : String, extract_model_prefix m = (pyWords m).head?) ∧
    extract_model_prefix "ACHX-B 90S" = some "ACHX-B" ∧
    extract_model_prefix "120T" = some "120T" ∧
    extract_model_prefix "" = none := by
  refine ⟨fun m => ?_, by decide, by decide, by decide⟩
  unfold extract_model_prefix
  by_cases hm : m = ""
  · subst hm; rfl
  rw [if_neg hm]
  rcases hw : pyWords m with _ | ⟨first, rest⟩
  · rfl
  have hshow : (match first :: rest with
      | [] => (none : Option String)
      | first :: _ =>
        if first.toList.any (fun c => c.isAlpha || c = '-') then some first
        else
          match leadingAlphaHyphen m with
          | some p => some p
          | none => some first) =
      (if first.toList.any (fun c => c.isAlpha || c = '-') then some first
       else
         match leadingAlphaHyphen m with
         | some p => some p
         | none => some first) := rfl
  rw [hshow]
  by_cases ha : first.toList.any (fun c => c.isAlpha || c = '-') = true
  · rw [if_pos ha]; rfl
  rw [if_neg ha]
  have hlah : leadingAlphaHyphen m = none := by
    unfold leadingAlphaHyphen
    rcases hml : m.toList with _ | ⟨x, t⟩
    · simp [hml]
    have hrun : (x :: t).takeWhile (fun c => c.isAlpha || c = '-') = [] := by
      by_cases hx : x.isWhitespace
      · rw [List.takeWhile_cons, if_neg (by simp [ws_not_alphaHyphen x hx])]
      · have hdrop : (x :: t).dropWhile Char.isWhitespace = x :: t := by
          rw [List.dropWhile_cons, if_neg hx]
        have hww := wordsAux_nil_of_dropWhile_cons (x :: t) x t hdrop
        rw [show pyWords m = wordsAux [] (x :: t) from by rw [pyWords, hml]] at hw
        rw [hww] at hw
        have hfirst : first = String.mk (x :: t.takeWhile (fun c => !c.isWhitespace)) := by
          injection hw with h1 _
          exact h1.symm
        have hxa : (x.isAlpha || x = '-') = false := by
          by_contra hxa
          refine ha ?_
          rw [hfirst]
          simp only [Bool.not_eq_false] at hxa
          simp [hxa]
        rw [List.takeWhile_cons, if_neg (by simp_all)]
    simp [hml, hrun]
  rw [hlah]; rfl

/-- Membership after a dict write: either an old binding survives or the
binding is the one just written. -/
theorem mem_dset {m : List (String × Val)} {k k' : String} {v v' : Val}
    (h : (k, v) ∈ dset m k' v') : (k, v) ∈ m ∨ (k = k' ∧ v = v') := by
  unfold dset at h
  split at h
  · rcases List.mem_map.mp h with ⟨p, hp, he⟩
    by_cases hk : p.1 = k'
    · rw [if_pos hk] at he
      right
      exact ⟨(Prod.mk.injEq .. ▸ he.symm).1, (Prod.mk.injEq .. ▸ he.symm).2⟩
    · rw [if_neg hk] at he
      left
      exact he ▸ hp
  · rcases List.mem_append.mp h with h | h
    · exact Or.inl h
    · right
      rcases List.mem_singleton.mp h with he
      exact ⟨(Prod.mk.injEq .. ▸ he).1, (Prod.mk.injEq .. ▸ he).2⟩

/-- Membership after an optional sub-field write. -/
theorem mem_dsetOpt {m : List (String × Val)} {k k' : String} {v : Val} {o : Option ℚ}
    (h : (k, v) ∈ dsetOpt m k' o) :
    (k, v) ∈ m ∨ (k = k' ∧ ∃ q, o = some q ∧ v = Val.vNum q) := by
  match o with
  | none => exact Or.inl h
  | some q =>
    rcases mem_dset h with h | ⟨h1, h2⟩
    · exact Or.inl h
    · exact Or.inr ⟨h1, q, rfl, h2⟩

/-- Membership after the numeric-field loop: either the binding was already
in the accumulator, or it is a numeric field whose `safe_float` coercion
succeeded with exactly the stored value. -/
theorem mem_numFold (data : List (String × Val)) {k : String} {v : Val} :
    ∀ (fields : List (String × String)) (acc : List (String × Val) × List String),
      (k, v) ∈ (fields.foldl (numStep data) acc).1 →
      (k, v) ∈ acc.1 ∨
        ((∃ dn, (k, dn) ∈ fields) ∧ ∃ pf, safe_float (dget data k) = some pf ∧ v = pf.toVal)
  | [], acc, h => Or.inl h
  | f :: fs, acc, h => by
    rcases mem_numFold data fs (numStep data acc f) h with h | ⟨⟨dn, hdn⟩, hpf⟩
    · unfold numStep at h
      split at h
      · next pf heq =>
        rcases mem_dset h with h | ⟨h1, h2⟩
        · exact Or.inl h
        · exact Or.inr ⟨⟨f.2, by rw [h1]; exact List.mem_cons_self _ _⟩,
            pf, by rw [h1]; exact heq, h2⟩
      · split at h
        · exact Or.inl h
        · exact Or.inl h
    · exact Or.inr ⟨⟨dn, List.mem_cons_of_mem _ hdn⟩, hpf⟩

/-- Membership after the text-field loop: either the binding was already in
the accumulator, or it is a text field whose raw value is truthy, stored as
the trimmed string rendering. -/
theorem mem_textFold (data : List (String × Val)) {k : String} {v : Val} :
    ∀ (fields : List String) (acc : List (String × Val) × List String),
      (k, v) ∈ (fields.foldl (textStep data) acc).1 →
      (k, v) ∈ acc.1 ∨
        (k ∈ fields ∧ pyTruthy (dget data k) = true ∧ v = .vStr (pyTrim (pyStr (dget data k))))
  | [], acc, h => Or.inl h
  | f :: fs, acc, h => by
    rcases mem_textFold data fs (textStep data acc f) h with h | ⟨hdn, hpf⟩
    · have h' : (k, v) ∈ (if pyTruthy (dget data f) = true then
          (dset acc.1 f (Val.vStr (pyTrim (pyStr (dget data f)))), acc.2) else acc).1 := h
      split at h'
      · next htr =>
        rcases mem_dset h' with h' | ⟨h1, h2⟩
        · exact Or.inl h'
        · subst h1
          exact Or.inr ⟨List.mem_cons_self _ _, htr, h2⟩
      · exact Or.inl h'
    · exact Or.inr ⟨List.mem_cons_of_mem _ hdn, hpf⟩

/-- Every binding of a cleaned record traces back to one of the write sites
of `validate_chiller_data`: a coerced numeric field, a truthy text field, a
decoded composite sub-field, the inferred manufacturer, or the extras dict. -/
theorem validate_origins (data : List (String × Val)) (k : String) (v : Val)
    (hmem : (k, v) ∈ (validate_chiller_data data).1) :
      ((∃ dn, (k, dn) ∈ numeric_fields) ∧
        ∃ pf, safe_float (dget data k) = some pf ∧ v = pf.toVal)
    ∨ (k ∈ text_fields ∧ pyTruthy (dget data k) = true ∧
        v = .vStr (pyTrim (pyStr (dget data k))))
    ∨ (k = "length_in" ∧ ∃ q, (parseDimsVal (dget data "dimensions")).1 = some q ∧ v = .vNum q)
    ∨ (k = "width_in" ∧ ∃ q, (parseDimsVal (dget data "dimensions")).2.1 = some q ∧ v = .vNum q)
    ∨ (k = "height_in" ∧ ∃ q, (parseDimsVal (dget data "dimensions")).2.2 = some q ∧ v = .vNum q)
    ∨ (k = "pressure_drop_psi" ∧
        ∃ q, (parsePressureVal (dget data "pressure_drop")).1 = some q ∧ v = .vNum q)
    ∨ (k = "pressure_drop_ftwg" ∧
        ∃ q, (parsePressureVal (dget data "pressure_drop")).2 = some q ∧ v = .vNum q)
    ∨ (k = "manufacturer" ∧ ∃ s, v = .vStr s)
    ∨ (k = "extras_json" ∧ ∃ entries, v = .vDict entries ∧ entries ≠ [] ∧
        ∀ p ∈ entries, p ∈ data ∧ isVNone p.2 = false) := by
  classical
  have hnum : ∀ w : Val,
      (k, w) ∈ (text_fields.foldl (textStep data)
        (numeric_fields.foldl (numStep data)
          ([], if pyTruthy (dget data "model") then [] else ["Model is required"]))).1 →
      ((∃ dn, (k, dn) ∈ numeric_fields) ∧
        ∃ pf, safe_float (dget data k) = some pf ∧ w = pf.toVal) ∨
      (k ∈ text_fields ∧ pyTruthy (dget data k) = true ∧
        w = .vStr (pyTrim (pyStr (dget data k)))) := by
    intro w hw
    rcases mem_textFold data text_fields _ hw with hw | hw
    · rcases mem_numFold data numeric_fields _ hw with hw | hw
      · exact absurd hw (by simp)
      · exact Or.inl hw
    · exact Or.inr hw
  -- names for the successive cleaning stages of the source
  set cleaned2 := (text_fields.foldl (textStep data)
    (numeric_fields.foldl (numStep data)
      ([], if pyTruthy (dget data "model") then [] else ["Model is required"]))).1 with hc2
  set cleaned3 := (if dhas data "dimensions" then
      let d := parseDimsVal (dget data "dimensions")
      dsetOpt (dsetOpt (dsetOpt cleaned2 "length_in" d.1) "width_in" d.2.1) "height_in" d.2.2
    else cleaned2) with hc3
  set cleaned4 := (if dhas data "pressure_drop" then
      let d := parsePressureVal (dget data "pressure_drop")
      dsetOpt (dsetOpt cleaned3 "pressure_drop_psi" d.1) "pressure_drop_ftwg" d.2
    else cleaned3) with hc4
  set cleaned5 := (if ¬pyTruthy (dget cleaned4 "manufacturer") && pyTruthy (dget cleaned4 "model")
    then
      match extract_manufacturer_from_model (pyStr (dget cleaned4 "model")) with
      | some m => dset cleaned4 "manufacturer" (.vStr m)
      | none => cleaned4
    else cleaned4) with hc5
  set extras := data.filter
    (fun p => ¬dhas cleaned5 p.1 && p.1 ≠ "dimensions" && p.1 ≠ "pressure_drop" && ¬isVNone p.2)
    with hex
  have hmem6 : (k, v) ∈ (if extras.isEmpty then cleaned5
      else cleaned5 ++ [("extras_json", Val.vDict extras)]) := hmem
  have hstage5 : ∀ w : Val, (k, w) ∈ cleaned5 →
      ((∃ dn, (k, dn) ∈ numeric_fields) ∧
        ∃ pf, safe_float (dget data k) = some pf ∧ w = pf.toVal)
    ∨ (k ∈ text_fields ∧ pyTruthy (dget data k) = true ∧
        w = .vStr (pyTrim (pyStr (dget data k))))
    ∨ (k = "length_in" ∧ ∃ q, (parseDimsVal (dget data "dimensions")).1 = some q ∧ w = .vNum q)
    ∨ (k = "width_in" ∧ ∃ q, (parseDimsVal (dget data "dimensions")).2.1 = some q ∧ w = .vNum q)
    ∨ (k = "height_in" ∧ ∃ q, (parseDimsVal (dget data "dimensions")).2.2 = some q ∧ w = .vNum q)
    ∨ (k = "pressure_drop_psi" ∧
        ∃ q, (parsePressureVal (dget data "pressure_drop")).1 = some q ∧ w = .vNum q)
    ∨ (k = "pressure_drop_ftwg" ∧
        ∃ q, (parsePressureVal (dget data "pressure_drop")).2 = some q ∧ w = .vNum q)
    ∨ (k = "manufacturer" ∧ ∃ s, w = .vStr s) := by
    intro w hw
    have hw4 : (k, w) ∈ cleaned4 ∨ (k = "manufacturer" ∧ ∃ s, w = .vStr s) := by
      rw [hc5] at hw
      split at hw
      · split at hw
        · next m _ =>
          rcases mem_dset hw with hw | ⟨h1, h2⟩
          · exact Or.inl hw
          · exact Or.inr ⟨h1, m, h2⟩
        · exact Or.inl hw
      · exact Or.inl hw
    rcases hw4 with hw4 | hman
    · have hw3 : (k, w) ∈ cleaned3
        ∨ (k = "pressure_drop_psi" ∧
            ∃ q, (parsePressureVal (dget data "pressure_drop")).1 = some q ∧ w = .vNum q)
        ∨ (k = "pressure_drop_ftwg" ∧
            ∃ q, (parsePressureVal (dget data "pressure_drop")).2 = some q ∧ w = .vNum q) := by
        rw [hc4] at hw4
        split at hw4
        · rcases mem_dsetOpt hw4 with hw4 | ⟨h1, q, hq, h2⟩
          · rcases mem_dsetOpt hw4 with hw4 | ⟨h1, q, hq, h2⟩
            · exact Or.inl hw4
            · exact Or.inr (Or.inl ⟨h1, q, hq, h2⟩)
          · exact Or.inr (Or.inr ⟨h1, q, hq, h2⟩)
        · exact Or.inl hw4
      rcases hw3 with hw3 | hpsi | hftwg
      · have hw2 : (k, w) ∈ cleaned2
          ∨ (k = "length_in" ∧
              ∃ q, (parseDimsVal (dget data "dimensions")).1 = some q ∧ w = .vNum q)
          ∨ (k = "width_in" ∧
              ∃ q, (parseDimsVal (dget data "dimensions")).2.1 = some q ∧ w = .vNum q)
          ∨ (k = "height_in" ∧
              ∃ q, (parseDimsVal (dget data "dimensions")).2.2 = some q ∧ w = .vNum q) := by
          rw [hc3] at hw3
          split at hw3
          · rcases mem_dsetOpt hw3 with hw3 | ⟨h1, q, hq, h2⟩
            · rcases mem_dsetOpt hw3 with hw3 | ⟨h1, q, hq, h2⟩
              · rcases mem_dsetOpt hw3 with hw3 | ⟨h1, q, hq, h2⟩
                · exact Or.inl hw3
                · exact Or.inr (Or.inl ⟨h1, q, hq, h2⟩)
              · exact Or.inr (Or.inr (Or.inl ⟨h1, q, hq, h2⟩))
            · exact Or.inr (Or.inr (Or.inr ⟨h1, q, hq, h2⟩))
          · exact Or.inl hw3
        rcases hw2 with hw2 | hl | hwi | hh
        · rcases hnum w hw2 with h | h
          · exact Or.inl h
          · exact Or.inr (Or.inl h)
        · exact Or.inr (Or.inr (Or.inl hl))
        · exact Or.inr (Or.inr (Or.inr (Or.inl hwi)))
        · exact Or.inr (Or.inr (Or.inr (Or.inr (Or.inl hh))))
      · exact Or.inr (Or.inr (Or.inr (Or.inr (Or.inr (Or.inl hpsi)))))
      · exact Or.inr (Or.inr (Or.inr (Or.inr (Or.inr (Or.inr (Or.inl hftwg))))))
    · exact Or.inr (Or.inr (Or.inr (Or.inr (Or.inr (Or.inr (Or.inr hman))))))
  split at hmem6
  · exact (hstage5 v hmem6).imp id (Or.imp id (Or.imp id (Or.imp id (Or.imp id
      (Or.imp id (Or.imp id Or.inl))))))
  · next hne =>
    rcases List.mem_append.mp hmem6 with h | h
    · exact (hstage5 v h).imp id (Or.imp id (Or.imp id (Or.imp id (Or.imp id
        (Or.imp id (Or.imp id Or.inl))))))
    · rcases List.mem_singleton.mp h with he
      refine Or.inr (Or.inr (Or.inr (Or.inr (Or.inr (Or.inr (Or.inr (Or.inr
        ⟨(Prod.mk.injEq .. ▸ he).1, extras, (Prod.mk.injEq .. ▸ he).2, ?_, ?_⟩)))))))
      · simpa using hne
      · intro p hp
        have := List.mem_filter.mp (hex ▸ hp)
        refine ⟨this.1, ?_⟩
        have hb := this.2
        simp only [Bool.and_eq_true, Bool.not_eq_true'] at hb
        simpa using hb.2

/-- A numeric field name is never a text field name. -/
theorem numeric_not_text (k : String) (dn : String) (h1 : (k, dn) ∈ numeric_fields)
    (h2 : k ∈ text_fields) : False := by
  fin_cases h1 <;> simp [text_fields] at h2

/-- C10 (counterexample).  The claim says text fields appear in the cleaned
record only when non-empty after trimming.  A whitespace-only model value is
truthy, so the source stores it — trimmed to the empty string. -/
theorem validate_chiller_data_counterexample :
    (validate_chiller_data [("model", Val.vStr " ")]).1 = [("model", Val.vStr "")] ∧
    pyTrim " " = "" := ⟨rfl, rfl⟩

/-- C10 (amended).  The cleaned record maps no key to `None`: numeric fields
appear only when the float coercion succeeded (with the coerced value, which
may be NaN); text fields appear only when the raw value is truthy — they are
stored trimmed, so a whitespace-only input is stored as the empty string —
except `manufacturer`, which can also be inferred from the model; composite
sub-fields appear only when the composite value parsed; `extras_json` holds
exactly non-`None` input values under unmapped keys. -/
theorem validate_chiller_data_clean (data : List (String × Val)) (k : String) (v : Val)
    (hmem : (k, v) ∈ (validate_chiller_data data).1) :
    v ≠ Val.vNone
  ∧ (∀ dn, (k, dn) ∈ numeric_fields →
      ∃ pf, safe_float (dget data k) = some pf ∧ v = pf.toVal)
  ∧ (k ∈ text_fields → k ≠ "manufacturer" →
      pyTruthy (dget data k) = true ∧ v = .vStr (pyTrim (pyStr (dget data k))))
  ∧ (k = "length_in" → ∃ q, (parseDimsVal (dget data "dimensions")).1 = some q ∧ v = .vNum q)
  ∧ (k = "width_in" → ∃ q, (parseDimsVal (dget data "dimensions")).2.1 = some q ∧ v = .vNum q)
  ∧ (k = "height_in" → ∃ q, (parseDimsVal (dget data "dimensions")).2.2 = some q ∧ v = .vNum q)
  ∧ (k = "pressure_drop_psi" →
      ∃ q, (parsePressureVal (dget data "pressure_drop")).1 = some q ∧ v = .vNum q)
  ∧ (k = "pressure_drop_ftwg" →
      ∃ q, (parsePressureVal (dget data "pressure_drop")).2 = some q ∧ v = .vNum q)
  ∧ (k = "extras_json" → ∃ entries, v = .vDict entries ∧ entries ≠ [] ∧
      ∀ p ∈ entries, p ∈ data ∧ isVNone p.2 = false) := by
  rcases validate_origins data k v hmem with
    ⟨⟨dn0, hdn0⟩, pf, hpf, hv⟩ | ⟨ht0, htr0, hv⟩ | ⟨hk, q0, hq0, hv⟩ | ⟨hk, q0, hq0, hv⟩ |
    ⟨hk, q0, hq0, hv⟩ | ⟨hk, q0, hq0, hv⟩ | ⟨hk, q0, hq0, hv⟩ | ⟨hk, s0, hv⟩ |
    ⟨hk, entries, hv, hne, hall⟩
  · refine ⟨by cases pf <;> simp [hv, PyF.toVal], fun dn _ => ⟨pf, hpf, hv⟩,
      fun ht _ => (numeric_not_text k dn0 hdn0 ht).elim, ?_, ?_, ?_, ?_, ?_, ?_⟩ <;>
      · intro hk; subst hk; simp [numeric_fields] at hdn0
  · refine ⟨by simp [hv], fun dn hdn => (numeric_not_text k dn hdn ht0).elim,
      fun _ _ => ⟨htr0, hv⟩, ?_, ?_, ?_, ?_, ?_, ?_⟩ <;>
      · intro hk; subst hk; simp [text_fields] at ht0
  · subst hk
    exact ⟨by simp [hv], fun dn hdn => by simp [numeric_fields] at hdn,
      fun ht => by simp [text_fields] at ht, fun _ => ⟨q0, hq0, hv⟩,
      fun h => by exact absurd h (by decide), fun h => by exact absurd h (by decide),
      fun h => by exact absurd h (by decide), fun h => by exact absurd h (by decide),
      fun h => by exact absurd h (by decide)⟩
  · subst hk
    exact ⟨by simp [hv], fun dn hdn => by simp [numeric_fields] at hdn,
      fun ht => by simp [text_fields] at ht, fun h => by exact absurd h (by decide),
      fun _ => ⟨q0, hq0, hv⟩, fun h => by exact absurd h (by decide),
      fun h => by exact absurd h (by decide), fun h => by exact absurd h (by decide),
      fun h => by exact absurd h (by decide)⟩
  · subst hk
    exact ⟨by simp [hv], fun dn hdn => by simp [numeric_fields] at hdn,
      fun ht => by simp [text_fields] at ht, fun h => by exact absurd h (by decide),
      fun h => by exact absurd h (by decide), fun _ => ⟨q0, hq0, hv⟩,
      fun h => by exact absurd h (by decide), fun h => by exact absurd h (by decide),
      fun h => by exact absurd h (by decide)⟩
  · subst hk
    exact ⟨by simp [hv], fun dn hdn => by simp [numeric_fields] at hdn,
      fun ht => by simp [text_fields] at ht, fun h => by exact absurd h (by decide),
      fun h => by exact absurd h (by decide), fun h => by exact absurd h (by decide),
      fun _ => ⟨q0, hq0, hv⟩, fun h => by exact absurd h (by decide),
      fun h => by exact absurd h (by decide)⟩
  · subst hk
    exact ⟨by simp [hv], fun dn hdn => by simp [numeric_fields] at hdn,
      fun ht => by simp [text_fields] at ht, fun h => by exact absurd h (by decide),
      fun h => by exact absurd h (by decide), fun h => by exact absurd h (by decide),
      fun h => by exact absurd h (by decide), fun _ => ⟨q0, hq0, hv⟩,
      fun h => by exact absurd h (by decide)⟩
  · subst hk
    exact ⟨by simp [hv], fun dn hdn => by simp [numeric_fields] at hdn,
      fun _ hne => (hne rfl).elim, fun h => by exact absurd h (by decide),
      fun h => by exact absurd h (by decide), fun h => by exact absurd h (by decide),
      fun h => by exact absurd h (by decide), fun h => by exact absurd h (by decide),
      fun h => by exact absurd h (by decide)⟩
  · subst hk
    exact ⟨by simp [hv], fun dn hdn => by simp [numeric_fields] at hdn,
      fun ht => by simp [text_fields] at ht, fun h => by exact absurd h (by decide),
      fun h => by exact absurd h (by decide), fun h => by exact absurd h (by decide),
      fun h => by exact absurd h (by decide), fun h => by exact absurd h (by decide),
      fun _ => ⟨entries, hv, hne, hall⟩⟩

/-- C10 (witness): the invariant applied at a concrete record. -/
theorem validate_chiller_data_clean_witness : Val.vStr "RT-1" ≠ Val.vNone :=
  (validate_chiller_data_clean [("model", Val.vStr "RT-1")] "model" (Val.vStr "RT-1")
    (by
      have h : (validate_chiller_data [("model", Val.vStr "RT-1")]).1 =
          [("model", Val.vStr "RT-1"), ("manufacturer", Val.vStr "Trane")] := rfl
      rw [h]
      exact List.mem_cons_self _ _)).1

/-- A decimal-number string as the dimension claim uses it: non-empty,
made of digits and at most one dot, with at least one digit — exactly the
strings group-matched by `[0-9.]+` on which `float` succeeds. -/
def isNumeral (l : List Char) : Prop :=
  l ≠ [] ∧ (∀ x ∈ l, isDigitDot x = true) ∧ l.count '.' ≤ 1 ∧ ∃ x ∈ l, x.isDigit

instance (l : List Char) : Decidable (isNumeral l) := by unfold isNumeral; infer_instance

/-- `float` succeeds on every decimal-number string. -/
theorem pyFloatOfDigitsDots_isSome {l : List Char} (h : isNumeral l) :
    ∃ q, pyFloatOfDigitsDots l = some q := by
  obtain ⟨h1, h2, h3, x, hx, hxd⟩ := h
  unfold pyFloatOfDigitsDots
  have hguard : (l.all isDigitDot && decide (l.count '.' ≤ 1) && l.any Char.isDigit) = true := by
    refine (Bool.and_eq_true ..).mpr ⟨(Bool.and_eq_true ..).mpr ⟨?_, ?_⟩, ?_⟩
    · exact List.all_eq_true.mpr h2
    · exact decide_eq_true h3
    · exact List.any_eq_true.mpr ⟨x, hx, hxd⟩
  rw [if_pos hguard]
  rcases l.dropWhile (fun ch => decide (ch ≠ '.')) with _ | ⟨y, frac⟩
  · exact ⟨_, rfl⟩
  · exact ⟨_, rfl⟩

/-- A digit-or-dot character is not whitespace. -/
theorem digitDot_not_ws (x : Char) (h : isDigitDot x = true) : x.isWhitespace = false := by
  cases hws : x.isWhitespace
  · rfl
  · simp only [Char.isWhitespace, decide_eq_true_eq, Bool.or_eq_true] at hws
    rcases hws with ((hw | hw) | hw) | hw <;> subst hw <;> simp [isDigitDot] at h

/-- Splitting an all-`p` block followed by a non-`p` head. -/
theorem takeWhile_append_block {p : Char → Bool} {a r : List Char}
    (ha : ∀ x ∈ a, p x = true) (hr : ∀ c, r.head? = some c → p c = false) :
    (a ++ r).takeWhile p = a ∧ (a ++ r).dropWhile p = r := by
  induction a with
  | nil =>
    simp only [List.nil_append]
    cases r with
    | nil => exact ⟨rfl, rfl⟩
    | cons c t =>
      have := hr c rfl
      rw [List.takeWhile_cons, List.dropWhile_cons]
      simp [this]
  | cons x xs ih =>
    have hx := ha x (List.mem_cons_self _ _)
    have ih' := ih (fun y hy => ha y (List.mem_cons_of_mem _ hy))
    rw [List.cons_append, List.takeWhile_cons, List.dropWhile_cons]
    simp [hx, ih'.1, ih'.2]

/-- The maximal-munch matcher succeeds on a well-formed dimension core and
returns exactly the three number groups (the trailing text after `H` and the
text before the first number never matter). -/
theorem matchDimsAt_core {a b c post : List Char}
    (ha : a ≠ [] ∧ ∀ x ∈ a, isDigitDot x = true)
    (hb : b ≠ [] ∧ ∀ x ∈ b, isDigitDot x = true)
    (hc : c ≠ [] ∧ ∀ x ∈ c, isDigitDot x = true) :
    matchDimsAt (a ++ ' ' :: 'L' :: ' ' :: (b ++ ' ' :: 'W' :: ' ' :: (c ++ ' ' :: 'H' :: post))) =
      some (a, b, c) := by
  have hhead : ∀ (z : Char) (t : List Char) (ch : Char),
      (' ' :: z :: t).head? = some ch → isDigitDot ch = false := by
    intro z t ch h
    rw [← Option.some_inj.mp h]
    rfl
  have h1 := takeWhile_append_block (p := isDigitDot) (a := a)
    (r := ' ' :: 'L' :: ' ' :: (b ++ ' ' :: 'W' :: ' ' :: (c ++ ' ' :: 'H' :: post)))
    ha.2 (hhead _ _)
  have h2 := takeWhile_append_block (p := isDigitDot) (a := b)
    (r := ' ' :: 'W' :: ' ' :: (c ++ ' ' :: 'H' :: post)) hb.2 (hhead _ _)
  have h3 := takeWhile_append_block (p := isDigitDot) (a := c)
    (r := ' ' :: 'H' :: post) hc.2 (hhead _ _)
  have hwsb : ∀ x ∈ b, x.isWhitespace = false := fun x hx => digitDot_not_ws x (hb.2 x hx)
  have hwsc : ∀ x ∈ c, x.isWhitespace = false := fun x hx => digitDot_not_ws x (hc.2 x hx)
  have hdwB : ∀ (u : List Char), (b ++ u).dropWhile Char.isWhitespace = b ++ u := by
    intro u
    rcases hbl : b with _ | ⟨x, xs⟩
    · exact absurd hbl hb.1
    · rw [List.cons_append, List.dropWhile_cons,
        if_neg (by simp [hwsb x (hbl ▸ List.mem_cons_self _ _)])]
  have hdwC : ∀ (u : List Char), (c ++ u).dropWhile Char.isWhitespace = c ++ u := by
    intro u
    rcases hcl : c with _ | ⟨x, xs⟩
    · exact absurd hcl hc.1
    · rw [List.cons_append, List.dropWhile_cons,
        if_neg (by simp [hwsc x (hcl ▸ List.mem_cons_self _ _)])]
  unfold matchDimsAt
  rw [h1.1, if_neg ha.1, h1.2]
  have hag1 : afterGroup 'L'
      (' ' :: 'L' :: ' ' :: (b ++ ' ' :: 'W' :: ' ' :: (c ++ ' ' :: 'H' :: post))) =
      some (' ' :: (b ++ ' ' :: 'W' :: ' ' :: (c ++ ' ' :: 'H' :: post))) := rfl
  rw [hag1]
  dsimp only
  have hdw2 : (' ' :: (b ++ ' ' :: 'W' :: ' ' :: (c ++ ' ' :: 'H' :: post))).dropWhile
      Char.isWhitespace = b ++ ' ' :: 'W' :: ' ' :: (c ++ ' ' :: 'H' :: post) := by
    rw [List.dropWhile_cons, if_pos (by decide), hdwB]
  rw [hdw2, h2.1, if_neg hb.1, h2.2]
  have hag2 : afterGroup 'W' (' ' :: 'W' :: ' ' :: (c ++ ' ' :: 'H' :: post)) =
      some (' ' :: (c ++ ' ' :: 'H' :: post)) := rfl
  rw [hag2]
  dsimp only
  have hdw3 : (' ' :: (c ++ ' ' :: 'H' :: post)).dropWhile Char.isWhitespace =
      c ++ ' ' :: 'H' :: post := by
    rw [List.dropWhile_cons, if_pos (by decide), hdwC]
  rw [hdw3, h3.1, if_neg hc.1, h3.2]
  have hag3 : afterGroup 'H' (' ' :: 'H' :: post) = some post := rfl
  rw [hag3]

/-- The matcher fails at a position that does not start with `[0-9.]`. -/
theorem matchDimsAt_not_digit {x : Char} {t : List Char} (hx : isDigitDot x = false) :
    matchDimsAt (x :: t) = none := by
  have htw : (x :: t).takeWhile isDigitDot = ([] : List Char) := by
    rw [List.takeWhile_cons]
    simp [hx]
  unfold matchDimsAt
  rw [htw]
  rfl

/-- The leftmost search skips a digit-free, dot-free region. -/
theorem searchDims_append {pre : List Char} (l : List Char)
    (hpre : ∀ x ∈ pre, isDigitDot x = false) :
    searchDims (pre ++ l) = searchDims l := by
  induction pre with
  | nil => rfl
  | cons x xs ih =>
    rw [List.cons_append]
    conv_lhs => rw [searchDims]
    rw [matchDimsAt_not_digit (hpre x (List.mem_cons_self _ _))]
    exact ih (fun y hy => hpre y (List.mem_cons_of_mem _ hy))

/-- When the matcher fires at the head position, the search returns it. -/
theorem searchDims_of_match {l : List Char} {g : List Char × List Char × List Char}
    (h : matchDimsAt l = some g) : searchDims l = some g := by
  cases l with
  | nil =>
    exact absurd h (by unfold matchDimsAt; rw [List.takeWhile_nil, if_pos rfl]; simp)
  | cons x t =>
    unfold searchDims
    rw [h]

/-- The first group of a successful match is the leading `[0-9.]` run of the
matched position. -/
theorem matchDimsAt_fst {l : List Char} {g1 g2 g3 : List Char}
    (h : matchDimsAt l = some (g1, g2, g3)) : g1 = l.takeWhile isDigitDot := by
  unfold matchDimsAt at h
  dsimp only at h
  by_cases h0 : l.takeWhile isDigitDot = []
  · rw [if_pos h0] at h
    exact absurd h (by simp)
  rw [if_neg h0] at h
  rcases hag : afterGroup 'L' (l.dropWhile isDigitDot) with _ | r2
  · rw [hag] at h
    exact absurd h (by simp)
  rw [hag] at h
  dsimp only at h
  by_cases h2 : (r2.dropWhile Char.isWhitespace).takeWhile isDigitDot = []
  · rw [if_pos h2] at h
    exact absurd h (by simp)
  rw [if_neg h2] at h
  rcases hag2 : afterGroup 'W' ((r2.dropWhile Char.isWhitespace).dropWhile isDigitDot) with _ | r4
  · rw [hag2] at h
    exact absurd h (by simp)
  rw [hag2] at h
  dsimp only at h
  by_cases h3 : (r4.dropWhile Char.isWhitespace).takeWhile isDigitDot = []
  · rw [if_pos h3] at h
    exact absurd h (by simp)
  rw [if_neg h3] at h
  rcases hag3 : afterGroup 'H' ((r4.dropWhile Char.isWhitespace).dropWhile isDigitDot) with _ | r6
  · rw [hag3] at h
    exact absurd h (by simp)
  rw [hag3] at h
  have he := Option.some_inj.mp h
  exact (congrArg (fun p => p.1) he).symm

/-- A successful search fires at some position of the text, so its groups
are made of the text's characters. -/
theorem searchDims_some {l : List Char} {g : List Char × List Char × List Char}
    (h : searchDims l = some g) :
    ∃ t : List Char, (∀ x ∈ t, x ∈ l) ∧ matchDimsAt t = some g := by
  induction l with
  | nil => exact absurd h (by simp [searchDims])
  | cons x rest ih =>
    unfold searchDims at h
    split at h
    · next heq => exact ⟨x :: rest, fun y hy => hy, heq ▸ h⟩
    · rcases ih h with ⟨t, hmem, hm⟩
      exact ⟨t, fun y hy => List.mem_cons_of_mem _ (hmem y hy), hm⟩

/-- `float` fails on a digit-free group. -/
theorem pyFloatOfDigitsDots_none {l : List Char} (h : ∀ x ∈ l, x.isDigit = false) :
    pyFloatOfDigitsDots l = none := by
  unfold pyFloatOfDigitsDots
  rw [if_neg]
  intro hc
  rcases List.any_eq_true.mp ((Bool.and_eq_true ..).mp hc).2 with ⟨x, hx, hxd⟩
  rw [h x hx] at hxd
  exact Bool.false_ne_true hxd

/-- C7 (counterexample).  The claim says the `"<n1> L <n2> W <n3> H"` pattern
is matched case-insensitively with any surrounding text ignored.  The source
regex is case-sensitive (`"1 l 2 w 3 h"` yields three `None`s instead of
`(1, 2, 3)`), and a digit/dot prefix merges into the first group
(`"0.0.0 L 2 W 3 H"` contains `"0 L 2 W 3 H"` yet yields three `None`s
because `float("0.0.0")` fails). -/
theorem parse_dimensions_counterexample :
    parse_dimensions "1 l 2 w 3 h" = (none, none, none) ∧
    parse_dimensions "0.0.0 L 2 W 3 H" = (none, none, none) ∧
    ((none, none, none) : Option ℚ × Option ℚ × Option ℚ) ≠ (some 1, some 2, some 3) := by
  exact ⟨rfl, rfl, by simp⟩

/-- C7 (amended).  For every string of the form
`<pre><n1> L <n2> W <n3> H<post>` with three decimal numbers, uppercase
letters (the regex is case-sensitive), and a preamble free of digits and
dots (so that it cannot pre-empt or extend the first group),
`parse_dimensions` returns exactly `(n1, n2, n3)`; and on every string
without a digit it returns `(None, None, None)` — it never raises. -/
theorem parse_dimensions_spec :
    (∀ a b c pre post : List Char, isNumeral a → isNumeral b → isNumeral c →
      (∀ x ∈ pre, isDigitDot x = false) →
      ∃ qa qb qc, pyFloatOfDigitsDots a = some qa ∧ pyFloatOfDigitsDots b = some qb ∧
        pyFloatOfDigitsDots c = some qc ∧
        parse_dimensions (String.mk (pre ++ a ++ ' ' :: 'L' :: ' ' ::
          (b ++ ' ' :: 'W' :: ' ' :: (c ++ ' ' :: 'H' :: post)))) = (some qa, some qb, some qc))
  ∧ (∀ s : String, (∀ x ∈ s.toList, x.isDigit = false) →
      parse_dimensions s = (none, none, none)) := by
  constructor
  · intro a b c pre post ha hb hc hpre
    obtain ⟨qa, hqa⟩ := pyFloatOfDigitsDots_isSome ha
    obtain ⟨qb, hqb⟩ := pyFloatOfDigitsDots_isSome hb
    obtain ⟨qc, hqc⟩ := pyFloatOfDigitsDots_isSome hc
    refine ⟨qa, qb, qc, hqa, hqb, hqc, ?_⟩
    have hcore := @matchDimsAt_core a b c post ⟨ha.1, ha.2.1⟩ ⟨hb.1, hb.2.1⟩ ⟨hc.1, hc.2.1⟩
    have hsearch : searchDims (pre ++ a ++ ' ' :: 'L' :: ' ' ::
        (b ++ ' ' :: 'W' :: ' ' :: (c ++ ' ' :: 'H' :: post))) = some (a, b, c) := by
      rw [List.append_assoc]
      rw [searchDims_append _ hpre]
      exact searchDims_of_match hcore
    have hne : String.mk (pre ++ a ++ ' ' :: 'L' :: ' ' ::
        (b ++ ' ' :: 'W' :: ' ' :: (c ++ ' ' :: 'H' :: post))) ≠ "" := by
      intro hstr
      have : (pre ++ a ++ ' ' :: 'L' :: ' ' ::
          (b ++ ' ' :: 'W' :: ' ' :: (c ++ ' ' :: 'H' :: post))) = ([] : List Char) :=
        congrArg String.toList hstr
      simp at this
    unfold parse_dimensions
    rw [if_neg hne]
    rw [show (String.mk (pre ++ a ++ ' ' :: 'L' :: ' ' ::
        (b ++ ' ' :: 'W' :: ' ' :: (c ++ ' ' :: 'H' :: post)))).toList =
      pre ++ a ++ ' ' :: 'L' :: ' ' ::
        (b ++ ' ' :: 'W' :: ' ' :: (c ++ ' ' :: 'H' :: post)) from rfl]
    rw [hsearch]
    dsimp only
    rw [hqa, hqb, hqc]
  · intro s hs
    unfold parse_dimensions
    by_cases hse : s = ""
    · rw [if_pos hse]
    rw [if_neg hse]
    rcases hsd : searchDims s.toList with _ | ⟨⟨g1, g2, g3⟩⟩
    · rfl
    obtain ⟨t, htmem, htm⟩ := searchDims_some hsd
    have hg1 : ∀ x ∈ g1, x.isDigit = false := by
      intro x hx
      have hx' : x ∈ t := (List.takeWhile_sublist _).mem (matchDimsAt_fst htm ▸ hx)
      exact hs x (htmem x hx')
    dsimp only
    rw [pyFloatOfDigitsDots_none hg1]

/-- C7 (witness): the amended pattern property applied at a concrete
dimension string with surrounding text. -/
theorem parse_dimensions_spec_witness :
    parse_dimensions (String.mk ("Size: ".toList ++ "152.0".toList ++ ' ' :: 'L' :: ' ' ::
      ("89.0".toList ++ ' ' :: 'W' :: ' ' :: ("89.5".toList ++ ' ' :: 'H' :: " (in)".toList)))) =
      (some 152, some 89, some (179/2)) := by
  obtain ⟨qa, qb, qc, h1, h2, h3, h4⟩ := parse_dimensions_spec.1 "152.0".toList "89.0".toList
    "89.5".toList "Size: ".toList " (in)".toList (by decide) (by decide) (by decide) (by decide)
  have hv1 : pyFloatOfDigitsDots "152.0".toList = some (152 : ℚ) := by
    with_unfolding_all decide
  have hv2 : pyFloatOfDigitsDots "89.0".toList = some (89 : ℚ) := by
    with_unfolding_all decide
  have hv3 : pyFloatOfDigitsDots "89.5".toList = some ((179 : ℚ)/2) := by
    with_unfolding_all decide
  have e1 : qa = 152 := Option.some_inj.mp (h1 ▸ hv1)
  have e2 : qb = 89 := Option.some_inj.mp (h2 ▸ hv2)
  have e3 : qc = 179/2 := Option.some_inj.mp (h3 ▸ hv3)
  rw [e1, e2, e3] at h4
  exact h4

/-- C5 (code bug).  On the table `"model,foo\nA,1"` the unmapped column
`foo` is routed into `extras_json` by `validate_chiller_data` (first
conjunct), but `parse_table_text` then re-projects the result frame onto the
columns of the pre-validation frame — which never include `extras_json` — so
the returned records have no `extras_json` column at all and the value `1`
of `foo` is dropped from the parse output (second and third conjuncts),
contradicting the specified invariant that unmapped input columns are never
dropped and land in `extras_json`. -/
theorem parse_table_text_drops_extras :
    (validate_chiller_data [("model", Val.vStr "A"), ("foo", Val.vNum 1),
        ("folder_name", Val.vStr "Unknown"), ("model_prefix", Val.vStr "A")]).1 =
      [("model", Val.vStr "A"), ("folder_name", Val.vStr "Unknown"),
       ("model_prefix", Val.vStr "A"), ("extras_json", Val.vDict [("foo", Val.vNum 1)])] ∧
    parse_table_text "model,foo\nA,1" none none none =
      (⟨["model", "folder_name", "model_prefix"],
        [[Val.vStr "A", Val.vStr "Unknown", Val.vStr "A"]]⟩,
       ["Row 1: Capacity (tons) is required", "Row 1: Energy efficiency is required"]) ∧
    ¬"extras_json" ∈ (parse_table_text "model,foo\nA,1" none none none).1.cols := by
  refine ⟨by with_unfolding_all rfl, by with_unfolding_all rfl, ?_⟩
  intro h
  have hc : (parse_table_text "model,foo\nA,1" none none none).1.cols =
      ["model", "folder_name", "model_prefix"] := by with_unfolding_all rfl
  rw [hc] at h
  simp at h

/-- C9 (code bug).  On the table
`"model,tons,efficiency\nRT-100,100,0.6\n,101,0.7"` the second row's model
cell is empty, i.e. NaN after pandas parsing.  NaN is truthy, so
`validate_chiller_data` raises no `"Model is required"` error (the parse
warnings are empty), the record is emitted with the string model `"nan"`,
and `import_chillers_from_dataframe` inserts and counts both records —
`(2, [])` — instead of excluding the model-less row from the import count
and appending `"Row 2: Model is required"`. -/
theorem import_counts_model_less_row :
    (parse_table_text "model,tons,efficiency\nRT-100,100,0.6\n,101,0.7" none none none).2 = [] ∧
    (parse_table_text "model,tons,efficiency\nRT-100,100,0.6\n,101,0.7"
        none none none).1.rows.length = 2 ∧
    import_chillers_from_dataframe
        (parse_table_text "model,tons,efficiency\nRT-100,100,0.6\n,101,0.7" none none none).1 =
      (2, []) := by
  refine ⟨by with_unfolding_all rfl, by with_unfolding_all rfl, by with_unfolding_all rfl⟩

/-- Membership in the store query: exact ambient, exact EWT/LWT when
supplied, and capacity inside the inclusive band. -/
theorem mem_get_chillers_by_criteria {store : List Chiller} {cap : ℚ} {amb : ℤ}
    {ewt lwt : Option ℚ} {tol : ℚ} {c : Chiller} :
    c ∈ get_chillers_by_criteria store cap amb ewt lwt tol ↔
      c ∈ store ∧ c.ambient_f = some amb ∧
      (∀ e, ewt = some e → c.ewt_c = some e) ∧
      (∀ e, lwt = some e → c.lwt_c = some e) ∧
      (∃ ct, c.capacity_tons = some ct ∧ cap * (1 - tol) ≤ ct ∧ ct ≤ cap * (1 + tol)) := by
  unfold get_chillers_by_criteria
  rw [List.mem_filter]
  constructor
  · rintro ⟨hs, hp⟩
    simp only [Bool.and_eq_true, decide_eq_true_eq] at hp
    obtain ⟨⟨⟨hA, hB⟩, hC⟩, hD⟩ := hp
    refine ⟨hs, hA, ?_, ?_, ?_⟩
    · intro e he
      subst he
      simpa using hC
    · intro e he
      subst he
      simpa using hD
    · rcases hct : c.capacity_tons with _ | ct
      · rw [hct] at hB
        simp at hB
      · rw [hct] at hB
        simp only [decide_eq_true_eq] at hB
        exact ⟨ct, rfl, hB.1, hB.2⟩
  · rintro ⟨hs, hA, hC, hD, ct, hct, h1, h2⟩
    refine ⟨hs, ?_⟩
    simp only [Bool.and_eq_true, decide_eq_true_eq]
    refine ⟨⟨⟨hA, ?_⟩, ?_⟩, ?_⟩
    · rw [hct]
      simp only [decide_eq_true_eq]
      exact ⟨h1, h2⟩
    · rcases ewt with _ | e
      · rfl
      · simpa using hC e rfl
    · rcases lwt with _ | e
      · rfl
      · simpa using hD e rfl

/-- The widening loop either exhausts the level list with every query empty
(reporting the hard-coded `0.20` metadata) or stops at the first level whose
query is non-empty. -/
theorem findWithTolAux_spec (store : List Chiller) (cap : ℚ) (amb : ℤ) (ewt lwt : Option ℚ) :
    ∀ ls : List ℚ,
      (findWithTolAux store cap amb ewt lwt ls).1 = [] ∧
        (findWithTolAux store cap amb ewt lwt ls).2.1 = 1/5 ∧
        (∀ t ∈ ls, get_chillers_by_criteria store cap amb ewt lwt t = []) ∧
        (findWithTolAux store cap amb ewt lwt ls).2.2 =
          ⟨cap, amb, ewt, lwt, 1/5, 20, (cap * (4/5), cap * (6/5)), 0⟩
    ∨ (∃ pre post, ls = pre ++ (findWithTolAux store cap amb ewt lwt ls).2.1 :: post ∧
        (∀ t ∈ pre, get_chillers_by_criteria store cap amb ewt lwt t = []) ∧
        (findWithTolAux store cap amb ewt lwt ls).1 =
          get_chillers_by_criteria store cap amb ewt lwt
            (findWithTolAux store cap amb ewt lwt ls).2.1 ∧
        (findWithTolAux store cap amb ewt lwt ls).1 ≠ [] ∧
        (findWithTolAux store cap amb ewt lwt ls).2.2 =
          ⟨cap, amb, ewt, lwt, (findWithTolAux store cap amb ewt lwt ls).2.1,
           (findWithTolAux store cap amb ewt lwt ls).2.1 * 100,
           (cap * (1 - (findWithTolAux store cap amb ewt lwt ls).2.1),
            cap * (1 + (findWithTolAux store cap amb ewt lwt ls).2.1)),
           (findWithTolAux store cap amb ewt lwt ls).1.length⟩)
  | [] => Or.inl ⟨rfl, rfl, by simp, rfl⟩
  | tol :: rest => by
    have hunf : findWithTolAux store cap amb ewt lwt (tol :: rest) =
        (if (get_chillers_by_criteria store cap amb ewt lwt tol).isEmpty then
          findWithTolAux store cap amb ewt lwt rest
        else
          (get_chillers_by_criteria store cap amb ewt lwt tol, tol,
           ⟨cap, amb, ewt, lwt, tol, tol * 100, (cap * (1 - tol), cap * (1 + tol)),
            (get_chillers_by_criteria store cap amb ewt lwt tol).length⟩)) := rfl
    by_cases he : (get_chillers_by_criteria store cap amb ewt lwt tol).isEmpty
    · have hstep : findWithTolAux store cap amb ewt lwt (tol :: rest) =
          findWithTolAux store cap amb ewt lwt rest := by
        rw [hunf, if_pos he]
      rw [hstep]
      have hetol : get_chillers_by_criteria store cap amb ewt lwt tol = [] :=
        List.isEmpty_iff.mp he
      rcases findWithTolAux_spec store cap amb ewt lwt rest with ⟨h1, h2, h3, h4⟩ |
        ⟨pre, post, hls, hpre, hq, hne, hinfo⟩
      · refine Or.inl ⟨h1, h2, ?_, h4⟩
        intro t ht
        rcases List.mem_cons.mp ht with rfl | ht
        · exact hetol
        · exact h3 t ht
      · refine Or.inr ⟨tol :: pre, post, by rw [List.cons_append, ← hls], ?_, hq, hne, hinfo⟩
        intro t ht
        rcases List.mem_cons.mp ht with rfl | ht
        · exact hetol
        · exact hpre t ht
    · have hstep : findWithTolAux store cap amb ewt lwt (tol :: rest) =
          (get_chillers_by_criteria store cap amb ewt lwt tol, tol,
           ⟨cap, amb, ewt, lwt, tol, tol * 100,
            (cap * (1 - tol), cap * (1 + tol)),
            (get_chillers_by_criteria store cap amb ewt lwt tol).length⟩) := by
        rw [hunf, if_neg he]
      rw [hstep]
      exact Or.inr ⟨[], rest, rfl, by simp, rfl, fun h => he (List.isEmpty_iff.mpr h), rfl⟩

/-- C1.  `find_best_match`'s candidate search tries the capacity tolerance
levels `10%, 12.5%, 15%, 17.5%, 20%` in exactly that increasing order; the
returned candidates are exactly the store query at the reported tolerance —
records whose `ambient_f` equals the target, whose `ewt_c`/`lwt_c` equal the
supplied targets (no filter for a null target), and whose `capacity_tons`
lies in the inclusive band `[cap·(1−tol), cap·(1+tol)]`; every strictly
smaller level's query is empty (the search stopped at the first non-empty
level); when even `20%` finds nothing the result is empty at tolerance
`20%`; and the search metadata reports the tolerance used, that band, and
the candidate count. -/
theorem find_candidates_with_tolerance_spec (store : List Chiller) (cap : ℚ) (amb : ℤ)
    (ewt lwt : Option ℚ) (r : List Chiller × ℚ × SearchInfo)
    (hr : r = find_candidates_with_tolerance store cap amb ewt lwt) :
    capacity_tolerance_levels = [1/10, 1/8, 3/20, 7/40, 1/5]
  ∧ List.Sorted (· < ·) capacity_tolerance_levels
  ∧ r.2.1 ∈ capacity_tolerance_levels
  ∧ r.1 = get_chillers_by_criteria store cap amb ewt lwt r.2.1
  ∧ (∀ t ∈ capacity_tolerance_levels, t < r.2.1 →
      get_chillers_by_criteria store cap amb ewt lwt t = [])
  ∧ (r.1 = [] → r.2.1 = 1/5 ∧
      ∀ t ∈ capacity_tolerance_levels, get_chillers_by_criteria store cap amb ewt lwt t = [])
  ∧ (∀ c : Chiller, c ∈ r.1 ↔
      c ∈ store ∧ c.ambient_f = some amb ∧
      (∀ e, ewt = some e → c.ewt_c = some e) ∧
      (∀ e, lwt = some e → c.lwt_c = some e) ∧
      (∃ ct, c.capacity_tons = some ct ∧ cap * (1 - r.2.1) ≤ ct ∧ ct ≤ cap * (1 + r.2.1)))
  ∧ r.2.2 = ⟨cap, amb, ewt, lwt, r.2.1, r.2.1 * 100,
      (cap * (1 - r.2.1), cap * (1 + r.2.1)), r.1.length⟩ := by
  subst hr
  unfold find_candidates_with_tolerance
  have hsorted : List.Sorted (· < ·) capacity_tolerance_levels := by
    have : List.Pairwise (· < ·) capacity_tolerance_levels := by
      unfold capacity_tolerance_levels
      with_unfolding_all decide
    exact this
  rcases findWithTolAux_spec store cap amb ewt lwt capacity_tolerance_levels with
    ⟨h1, h2, h3, h4⟩ | ⟨pre, post, hls, hpre, hq, hne, hinfo⟩
  · refine ⟨rfl, hsorted, ?_, ?_, ?_, ?_, ?_, ?_⟩
    · rw [h2]
      unfold capacity_tolerance_levels
      simp
    · rw [h1, h2]
      exact (h3 (1/5) (by unfold capacity_tolerance_levels; simp)).symm
    · intro t ht _
      exact h3 t ht
    · intro _
      exact ⟨h2, h3⟩
    · intro c
      rw [h1, h2]
      rw [show ([] : List Chiller) = get_chillers_by_criteria store cap amb ewt lwt (1/5) from
        (h3 (1/5) (by unfold capacity_tolerance_levels; simp)).symm]
      exact mem_get_chillers_by_criteria
    · rw [h4, h2, h1]
      have e1 : (1 : ℚ)/5 * 100 = 20 := by norm_num
      have e2 : cap * (4/5) = cap * (1 - 1/5) := by ring
      have e3 : cap * (6/5) = cap * (1 + 1/5) := by ring
      rw [e1, e2, e3]
      rfl
  · have htolmem : (findWithTolAux store cap amb ewt lwt capacity_tolerance_levels).2.1 ∈
        capacity_tolerance_levels := by
      have hgen : ∀ L : List ℚ,
          L = pre ++ (findWithTolAux store cap amb ewt lwt capacity_tolerance_levels).2.1 :: post →
          (findWithTolAux store cap amb ewt lwt capacity_tolerance_levels).2.1 ∈ L := by
        intro L hL
        rw [hL]
        simp
      exact hgen capacity_tolerance_levels hls
    refine ⟨rfl, hsorted, htolmem, hq, ?_, fun habs => absurd habs hne, ?_, hinfo⟩
    · intro t ht hlt
      have ht' : t ∈ pre ++ (findWithTolAux store cap amb ewt lwt capacity_tolerance_levels).2.1
          :: post := hls ▸ ht
      rcases List.mem_append.mp ht' with hp | hp
      · exact hpre t hp
      · rcases List.mem_cons.mp hp with rfl | hp
        · exact absurd hlt (lt_irrefl _)
        · exfalso
          have hsorted' : List.Sorted (· < ·)
              (pre ++ (findWithTolAux store cap amb ewt lwt capacity_tolerance_levels).2.1
                :: post) := hls ▸ hsorted
          have hsuffix : List.Sorted (· < ·)
              ((findWithTolAux store cap amb ewt lwt capacity_tolerance_levels).2.1 :: post) :=
            hsorted'.sublist (List.sublist_append_right _ _)
          exact absurd (List.rel_of_sorted_cons hsuffix t hp) (not_lt.mpr hlt.le)
    · intro c
      rw [hq]
      exact mem_get_chillers_by_criteria

/-- C1 (witness): on a store whose only chiller needs the `12.5%` band, the
`10%` query is empty and the reported tolerance is a listed level. -/
theorem find_candidates_with_tolerance_spec_witness :
    get_chillers_by_criteria [⟨1, "A", some 89, some 105, none, none, some 1, none⟩] 100 105
      none none (1/10) = [] ∧
    (find_candidates_with_tolerance [⟨1, "A", some 89, some 105, none, none, some 1, none⟩]
      100 105 none none).2.1 ∈ capacity_tolerance_levels := by
  have h := find_candidates_with_tolerance_spec
    [⟨1, "A", some 89, some 105, none, none, some 1, none⟩] 100 105 none none _ rfl
  refine ⟨h.2.2.2.2.1 (1/10) (by with_unfolding_all decide) ?_, h.2.2.1⟩
  with_unfolding_all decide

/-- A lexicographic refinement of a total relation is total. -/
theorem lexLe_total {α γ : Type} [LinearOrder γ] (f : α → γ) (r : α → α → Prop)
    (h : ∀ a b, r a b ∨ r b a) : ∀ a b, lexLe f r a b ∨ lexLe f r b a := by
  intro a b
  rcases lt_trichotomy (f a) (f b) with h1 | h1 | h1
  · exact Or.inl (Or.inl h1)
  · rcases h a b with h2 | h2
    · exact Or.inl (Or.inr ⟨h1, h2⟩)
    · exact Or.inr (Or.inr ⟨h1.symm, h2⟩)
  · exact Or.inr (Or.inl h1)

/-- A lexicographic refinement of a transitive relation is transitive. -/
theorem lexLe_trans {α γ : Type} [LinearOrder γ] (f : α → γ) (r : α → α → Prop)
    (h : ∀ a b c, r a b → r b c → r a c) :
    ∀ a b c, lexLe f r a b → lexLe f r b c → lexLe f r a c := by
  rintro a b c (h1 | ⟨h1, h1r⟩) (h2 | ⟨h2, h2r⟩)
  · exact Or.inl (h1.trans h2)
  · exact Or.inl (h2 ▸ h1)
  · exact Or.inl (h1 ▸ h2)
  · exact Or.inr ⟨h1.trans h2, h a b c h1r h2r⟩

instance rankLe_isTotal (cap : ℚ) (ewt lwt : Option ℚ) :
    IsTotal Chiller (rankLe cap ewt lwt) :=
  ⟨lexLe_total _ _ (lexLe_total _ _ (lexLe_total _ _ (fun _ _ => le_total _ _)))⟩

instance rankLe_isTrans (cap : ℚ) (ewt lwt : Option ℚ) :
    IsTrans Chiller (rankLe cap ewt lwt) :=
  ⟨lexLe_trans _ _ (lexLe_trans _ _ (lexLe_trans _ _ (fun _ _ _ => le_trans)))⟩

/-- The ranked list projects to the stable sort of the candidates. -/
theorem rank_candidates_map_chiller (cs : List Chiller) (cap : ℚ) (ewt lwt : Option ℚ) :
    (rank_candidates cs cap ewt lwt).map (fun rc => rc.chiller) =
      cs.insertionSort (rankLe cap ewt lwt) := by
  unfold rank_candidates
  rw [List.map_map]
  exact List.enum_map_snd _

/-- The attached ranks are `1..N` in order. -/
theorem rank_candidates_map_rank (cs : List Chiller) (cap : ℚ) (ewt lwt : Option ℚ) :
    (rank_candidates cs cap ewt lwt).map (fun rc => rc.rank) = List.range' 1 cs.length := by
  unfold rank_candidates
  rw [List.map_map]
  have hf : ((fun rc : RankedChiller => rc.rank) ∘
      (fun p : ℕ × Chiller => (⟨p.2, p.1 + 1, capDelta cap p.2, tempScore ewt lwt p.2⟩ :
        RankedChiller))) = (fun n : ℕ => n + 1) ∘ Prod.fst := rfl
  rw [hf, ← List.map_map, List.enum_map_fst, List.length_insertionSort,
    List.range'_eq_map_range]
  exact List.map_congr_left (fun n _ => Nat.add_comm n 1)

/-- The ranked list is pairwise ordered by the ranking relation on the
underlying chillers. -/
theorem rank_candidates_pairwise (cs : List Chiller) (cap : ℚ) (ewt lwt : Option ℚ) :
    List.Pairwise (fun x y : RankedChiller => rankLe cap ewt lwt x.chiller y.chiller)
      (rank_candidates cs cap ewt lwt) := by
  have hs : List.Pairwise (rankLe cap ewt lwt) (cs.insertionSort (rankLe cap ewt lwt)) :=
    List.sorted_insertionSort (rankLe cap ewt lwt) cs
  have := List.pairwise_map.mp
    (show List.Pairwise (rankLe cap ewt lwt)
      (((cs.insertionSort (rankLe cap ewt lwt)).enum).map Prod.snd) by
      rw [List.enum_map_snd]; exact hs)
  exact List.pairwise_map.mpr this

/-- C2.  The ranking sorts candidates ascending by the lexicographic tuple
`(|capacity − target|, temperature_score, efficiency-with-∞-default,
−waterflow-with-0-default)` (the relation `rankLe`): it permutes the
candidate set, the output is sorted, the sort is stable (a tied pair keeps
its input order), ranks `1..N` are assigned in order, the attached
annotations are the tuple's first two components, and in the concrete
scenario (target 100 tons; candidates 98, 102, 115 tons at matching EWT/LWT
with efficiencies 0.60, 0.55, 0.58) the 102-ton unit ranks first. -/
theorem rank_candidates_spec (cs : List Chiller) (cap : ℚ) (ewt lwt : Option ℚ) :
    ((rank_candidates cs cap ewt lwt).map (fun rc => rc.chiller)).Perm cs
  ∧ List.Sorted (rankLe cap ewt lwt) ((rank_candidates cs cap ewt lwt).map (fun rc => rc.chiller))
  ∧ (∀ a b : Chiller, [a, b].Sublist cs →
      capDelta cap a = capDelta cap b → tempScore ewt lwt a = tempScore ewt lwt b →
      effKey a = effKey b → negWaterflow a = negWaterflow b →
      [a, b].Sublist ((rank_candidates cs cap ewt lwt).map (fun rc => rc.chiller)))
  ∧ (rank_candidates cs cap ewt lwt).map (fun rc => rc.rank) = List.range' 1 cs.length
  ∧ (∀ rc ∈ rank_candidates cs cap ewt lwt, rc.cap_delta = capDelta cap rc.chiller ∧
      rc.temp_score = tempScore ewt lwt rc.chiller)
  ∧ (rank_candidates [⟨1, "C98", some 98, some 105, some 54, some 44, some (3/5), none⟩,
        ⟨2, "C102", some 102, some 105, some 54, some 44, some (11/20), none⟩,
        ⟨3, "C115", some 115, some 105, some 54, some 44, some (29/50), none⟩] 100
        (some 54) (some 44)).head?.map (fun rc => rc.chiller.capacity_tons) =
      some (some 102) := by
  refine ⟨?_, ?_, ?_, rank_candidates_map_rank cs cap ewt lwt, ?_, ?_⟩
  · rw [rank_candidates_map_chiller]
    exact List.perm_insertionSort _ _
  · rw [rank_candidates_map_chiller]
    exact List.sorted_insertionSort _ _
  · intro a b hsub h1 h2 h3 h4
    rw [rank_candidates_map_chiller]
    exact List.pair_sublist_insertionSort
      (Or.inr ⟨h1, Or.inr ⟨h2, Or.inr ⟨h3, le_of_eq (by rw [h4])⟩⟩⟩) hsub
  · intro rc hrc
    unfold rank_candidates at hrc
    rcases List.mem_map.mp hrc with ⟨p, _, rfl⟩
    exact ⟨rfl, rfl⟩
  · with_unfolding_all decide

/-- C2 (witness): two candidates with identical ranking tuples keep their
input order in the ranked output. -/
theorem rank_candidates_spec_witness :
    [(⟨1, "A", some 100, some 105, none, none, some 1, some 5⟩ : Chiller),
     ⟨2, "B", some 100, some 105, none, none, some 1, some 5⟩].Sublist
      ((rank_candidates [⟨1, "A", some 100, some 105, none, none, some 1, some 5⟩,
        ⟨2, "B", some 100, some 105, none, none, some 1, some 5⟩] 100 none none).map
        (fun rc => rc.chiller)) :=
  (rank_candidates_spec [⟨1, "A", some 100, some 105, none, none, some 1, some 5⟩,
      ⟨2, "B", some 100, some 105, none, none, some 1, some 5⟩] 100 none none).2.2.1
    _ _ (List.Sublist.refl _) (by with_unfolding_all decide) (by with_unfolding_all decide)
    (by with_unfolding_all decide) (by with_unfolding_all decide)

/-- The ranking relation is reflexive. -/
theorem rankLe_refl (cap : ℚ) (ewt lwt : Option ℚ) (c : Chiller) :
    rankLe cap ewt lwt c c :=
  Or.inr ⟨rfl, Or.inr ⟨rfl, Or.inr ⟨rfl, le_refl _⟩⟩⟩

/-- The ranking relation entails a capacity-delta inequality (its first
lexicographic component). -/
theorem rankLe_capDelta_le {cap : ℚ} {ewt lwt : Option ℚ} {x y : Chiller}
    (h : rankLe cap ewt lwt x y) : capDelta cap x ≤ capDelta cap y := by
  unfold rankLe lexLe at h
  rcases h with h | ⟨h, -⟩
  · exact le_of_lt h
  · exact le_of_eq h

/-- The head of a filtered pairwise-ordered list is related to every
element of the list satisfying the filter. -/
theorem pairwise_filter_head {α : Type} (R : α → α → Prop) (hrefl : ∀ a, R a a)
    (p : α → Bool) (l : List α) (hpw : List.Pairwise R l) (a : α)
    (ha : (l.filter p).head? = some a) :
    a ∈ l ∧ p a = true ∧ ∀ c ∈ l, p c = true → R a c := by
  cases hF : l.filter p with
  | nil => rw [hF] at ha; cases ha
  | cons a0 as =>
    rw [hF] at ha
    obtain rfl : a0 = a := Option.some_inj.mp ha
    have haF : a0 ∈ l.filter p := by rw [hF]; exact List.mem_cons_self a0 as
    have hmem := List.mem_filter.mp haF
    refine ⟨hmem.1, hmem.2, ?_⟩
    intro c hc hpc
    have hcF : c ∈ l.filter p := List.mem_filter.mpr ⟨hc, hpc⟩
    rw [hF] at hcF
    rcases List.mem_cons.mp hcF with rfl | hcas
    · exact hrefl c
    · have hpwF : List.Pairwise R (l.filter p) :=
        List.Pairwise.sublist (List.filter_sublist l) hpw
      rw [hF] at hpwF
      exact (List.pairwise_cons.mp hpwF).1 c hcas

/-- Among candidates strictly above a best capacity, a smaller capacity
delta from the target forces a smaller capacity. -/
theorem above_min_arith (t b a c : ℚ) (h1 : |b - t| ≤ |a - t|)
    (h2 : |a - t| ≤ |c - t|) (h3 : b < a) (h4 : b < c) : a ≤ c := by
  rcases abs_cases (b - t) with ⟨e1, s1⟩ | ⟨e1, s1⟩ <;>
    rcases abs_cases (a - t) with ⟨e2, s2⟩ | ⟨e2, s2⟩ <;>
      rcases abs_cases (c - t) with ⟨e3, s3⟩ | ⟨e3, s3⟩ <;>
        rw [e1, e2] at h1 <;> rw [e2, e3] at h2 <;> linarith

/-- Among candidates strictly below a best capacity, a smaller capacity
delta from the target forces a larger capacity. -/
theorem below_max_arith (t b a c : ℚ) (h1 : |b - t| ≤ |a - t|)
    (h2 : |a - t| ≤ |c - t|) (h3 : a < b) (h4 : c < b) : c ≤ a := by
  rcases abs_cases (b - t) with ⟨e1, s1⟩ | ⟨e1, s1⟩ <;>
    rcases abs_cases (a - t) with ⟨e2, s2⟩ | ⟨e2, s2⟩ <;>
      rcases abs_cases (c - t) with ⟨e3, s3⟩ | ⟨e3, s3⟩ <;>
        rw [e1, e2] at h1 <;> rw [e2, e3] at h2 <;> linarith

/-- The ranked list has as many entries as the candidate list. -/
theorem rank_candidates_length (cs : List Chiller) (cap : ℚ) (ewt lwt : Option ℚ) :
    (rank_candidates cs cap ewt lwt).length = cs.length := by
  unfold rank_candidates
  rw [List.length_map, List.enum_length, List.length_insertionSort]

/-- An option's element list has at most one element. -/
theorem option_toList_length_le {α : Type} (o : Option α) : o.toList.length ≤ 1 := by
  cases o <;> simp

/-- Selecting from a non-empty list keeps the head and appends the first
strictly-above and first strictly-below candidates, uncapped by the
`take 3` since at most three items are ever assembled. -/
theorem select_best_3_options_cons (best : RankedChiller) (rest : List RankedChiller) :
    select_best_3_options (best :: rest) =
      best :: ((rest.filter (fun c => decide (best.chiller.capacity_tons.getD 0 <
          c.chiller.capacity_tons.getD 0))).head?.toList ++
        (rest.filter (fun c => decide (c.chiller.capacity_tons.getD 0 <
          best.chiller.capacity_tons.getD 0))).head?.toList) := by
  have hdef : select_best_3_options (best :: rest) =
      (best :: ((rest.filter (fun c => decide (best.chiller.capacity_tons.getD 0 <
          c.chiller.capacity_tons.getD 0))).head?.toList ++
        (rest.filter (fun c => decide (c.chiller.capacity_tons.getD 0 <
          best.chiller.capacity_tons.getD 0))).head?.toList)).take 3 := rfl
  rw [hdef]
  apply List.take_of_length_le
  have h1 := option_toList_length_le (rest.filter (fun c =>
    decide (best.chiller.capacity_tons.getD 0 < c.chiller.capacity_tons.getD 0))).head?
  have h2 := option_toList_length_le (rest.filter (fun c =>
    decide (c.chiller.capacity_tons.getD 0 < best.chiller.capacity_tons.getD 0))).head?
  simp only [List.length_cons, List.length_append]
  omega

/-- C3.  On a non-empty candidate set the selection takes the rank-1
candidate as best option; the returned option list is the best followed by
the first ranked candidate strictly above the best's capacity and the first
ranked candidate strictly below it, each present only when it exists, at
most three in total; the first-above alternative has the smallest capacity
among all remaining candidates strictly above the best, and the first-below
alternative the largest among those strictly below; and `find_best_chillers`
exposes exactly these as `best_option` and `alternatives` whenever the
tolerance search returns this candidate set. -/
theorem select_best_3_options_spec (cs : List Chiller) (cap : ℚ) (ewt lwt : Option ℚ)
    (hcs : cs ≠ []) :
    ∃ best rest, rank_candidates cs cap ewt lwt = best :: rest
    ∧ best.rank = 1
    ∧ (select_best_3_options (rank_candidates cs cap ewt lwt)).head? = some best
    ∧ (select_best_3_options (rank_candidates cs cap ewt lwt)).length ≤ 3
    ∧ select_best_3_options (rank_candidates cs cap ewt lwt) =
        best :: ((rest.filter (fun c => decide (best.chiller.capacity_tons.getD 0 <
            c.chiller.capacity_tons.getD 0))).head?.toList ++
          (rest.filter (fun c => decide (c.chiller.capacity_tons.getD 0 <
            best.chiller.capacity_tons.getD 0))).head?.toList)
    ∧ (∀ a, (rest.filter (fun c => decide (best.chiller.capacity_tons.getD 0 <
          c.chiller.capacity_tons.getD 0))).head? = some a →
        best.chiller.capacity_tons.getD 0 < a.chiller.capacity_tons.getD 0 ∧
        ∀ c ∈ rest, best.chiller.capacity_tons.getD 0 < c.chiller.capacity_tons.getD 0 →
          a.chiller.capacity_tons.getD 0 ≤ c.chiller.capacity_tons.getD 0)
    ∧ (∀ b, (rest.filter (fun c => decide (c.chiller.capacity_tons.getD 0 <
          best.chiller.capacity_tons.getD 0))).head? = some b →
        b.chiller.capacity_tons.getD 0 < best.chiller.capacity_tons.getD 0 ∧
        ∀ c ∈ rest, c.chiller.capacity_tons.getD 0 < best.chiller.capacity_tons.getD 0 →
          c.chiller.capacity_tons.getD 0 ≤ b.chiller.capacity_tons.getD 0)
    ∧ (∀ (store : List Chiller) (amb : ℤ),
        (find_candidates_with_tolerance store cap amb ewt lwt).1 = cs →
        (find_best_chillers store cap amb ewt lwt).best_option = some best ∧
        (find_best_chillers store cap amb ewt lwt).alternatives =
          (select_best_3_options (rank_candidates cs cap ewt lwt)).drop 1) := by
  cases hR : rank_candidates cs cap ewt lwt with
  | nil =>
    exfalso
    have hlen := rank_candidates_length cs cap ewt lwt
    rw [hR] at hlen
    exact hcs (List.length_eq_zero.mp hlen.symm)
  | cons best rest =>
    have hpw : List.Pairwise
        (fun x y : RankedChiller => rankLe cap ewt lwt x.chiller y.chiller)
        (best :: rest) := by
      rw [← hR]; exact rank_candidates_pairwise cs cap ewt lwt
    have hbest := (List.pairwise_cons.mp hpw).1
    have hrest := (List.pairwise_cons.mp hpw).2
    have hsel := select_best_3_options_cons best rest
    have hrank1 : best.rank = 1 := by
      have hmap := rank_candidates_map_rank cs cap ewt lwt
      have hlen := rank_candidates_length cs cap ewt lwt
      rw [hR] at hmap hlen
      simp only [List.length_cons] at hlen
      rw [← hlen] at hmap
      have h2 : best.rank :: rest.map (fun rc => rc.rank) =
          1 :: List.range' 2 rest.length := hmap
      injection h2 with h2a h2b
    refine ⟨best, rest, rfl, hrank1, ?_, ?_, hsel, ?_, ?_, ?_⟩
    · rw [hsel]
      rfl
    · rw [hsel]
      have h1 := option_toList_length_le (rest.filter (fun c =>
        decide (best.chiller.capacity_tons.getD 0 < c.chiller.capacity_tons.getD 0))).head?
      have h2 := option_toList_length_le (rest.filter (fun c =>
        decide (c.chiller.capacity_tons.getD 0 < best.chiller.capacity_tons.getD 0))).head?
      simp only [List.length_cons, List.length_append]
      omega
    · intro a ha
      have hmin := pairwise_filter_head
        (fun x y : RankedChiller => rankLe cap ewt lwt x.chiller y.chiller)
        (fun x => rankLe_refl cap ewt lwt x.chiller)
        (fun c => decide (best.chiller.capacity_tons.getD 0 < c.chiller.capacity_tons.getD 0))
        rest hrest a ha
      have hagt : best.chiller.capacity_tons.getD 0 < a.chiller.capacity_tons.getD 0 :=
        of_decide_eq_true hmin.2.1
      refine ⟨hagt, ?_⟩
      intro c hc hcgt
      have hrel := hmin.2.2 c hc (decide_eq_true hcgt)
      exact above_min_arith cap (best.chiller.capacity_tons.getD 0)
        (a.chiller.capacity_tons.getD 0) (c.chiller.capacity_tons.getD 0)
        (rankLe_capDelta_le (hbest a hmin.1))
        (rankLe_capDelta_le hrel) hagt hcgt
    · intro b hb
      have hmax := pairwise_filter_head
        (fun x y : RankedChiller => rankLe cap ewt lwt x.chiller y.chiller)
        (fun x => rankLe_refl cap ewt lwt x.chiller)
        (fun c => decide (c.chiller.capacity_tons.getD 0 < best.chiller.capacity_tons.getD 0))
        rest hrest b hb
      have hblt : b.chiller.capacity_tons.getD 0 < best.chiller.capacity_tons.getD 0 :=
        of_decide_eq_true hmax.2.1
      refine ⟨hblt, ?_⟩
      intro c hc hclt
      have hrel := hmax.2.2 c hc (decide_eq_true hclt)
      exact below_max_arith cap (best.chiller.capacity_tons.getD 0)
        (b.chiller.capacity_tons.getD 0) (c.chiller.capacity_tons.getD 0)
        (rankLe_capDelta_le (hbest b hmax.1))
        (rankLe_capDelta_le hrel) hblt hclt
    · intro store amb hstore
      have hne : cs.isEmpty = false := by
        cases cs with
        | nil => exact absurd rfl hcs
        | cons x xs => rfl
      have hrne : (best :: rest).isEmpty = false := rfl
      unfold find_best_chillers
      dsimp only
      rw [hstore, hne]
      simp only [Bool.false_eq_true, if_false]
      rw [hR, hrne]
      simp only [Bool.false_eq_true, if_false]
      constructor
      · dsimp only
        rw [hsel]
        rfl
      · dsimp only
        rw [hsel]
        simp only [List.drop_succ_cons, List.drop_zero]
        apply List.take_of_length_le
        have h1 := option_toList_length_le (rest.filter (fun c =>
          decide (best.chiller.capacity_tons.getD 0 < c.chiller.capacity_tons.getD 0))).head?
        have h2 := option_toList_length_le (rest.filter (fun c =>
          decide (c.chiller.capacity_tons.getD 0 < best.chiller.capacity_tons.getD 0))).head?
        simp only [List.length_append]
        omega

/-- C3 (witness): the selection specification instantiated on the concrete
three-candidate scenario with target 100 tons. -/
theorem select_best_3_options_spec_witness :
    ∃ best rest, rank_candidates
        [⟨1, "C98", some 98, some 105, some 54, some 44, some (3/5), none⟩,
         ⟨2, "C102", some 102, some 105, some 54, some 44, some (11/20), none⟩,
         ⟨3, "C115", some 115, some 105, some 54, some 44, some (29/50), none⟩]
        100 (some 54) (some 44) = best :: rest
    ∧ best.rank = 1
    ∧ (select_best_3_options (rank_candidates
        [⟨1, "C98", some 98, some 105, some 54, some 44, some (3/5), none⟩,
         ⟨2, "C102", some 102, some 105, some 54, some 44, some (11/20), none⟩,
         ⟨3, "C115", some 115, some 105, some 54, some 44, some (29/50), none⟩]
        100 (some 54) (some 44))).head? = some best
    ∧ (select_best_3_options (rank_candidates
        [⟨1, "C98", some 98, some 105, some 54, some 44, some (3/5), none⟩,
         ⟨2, "C102", some 102, some 105, some 54, some 44, some (11/20), none⟩,
         ⟨3, "C115", some 115, some 105, some 54, some 44, some (29/50), none⟩]
        100 (some 54) (some 44))).length ≤ 3
    ∧ select_best_3_options (rank_candidates
        [⟨1, "C98", some 98, some 105, some 54, some 44, some (3/5), none⟩,
         ⟨2, "C102", some 102, some 105, some 54, some 44, some (11/20), none⟩,
         ⟨3, "C115", some 115, some 105, some 54, some 44, some (29/50), none⟩]
        100 (some 54) (some 44)) =
        best :: ((rest.filter (fun c => decide (best.chiller.capacity_tons.getD 0 <
            c.chiller.capacity_tons.getD 0))).head?.toList ++
          (rest.filter (fun c => decide (c.chiller.capacity_tons.getD 0 <
            best.chiller.capacity_tons.getD 0))).head?.toList)
    ∧ (∀ a, (rest.filter (fun c => decide (best.chiller.capacity_tons.getD 0 <
          c.chiller.capacity_tons.getD 0))).head? = some a →
        best.chiller.capacity_tons.getD 0 < a.chiller.capacity_tons.getD 0 ∧
        ∀ c ∈ rest, best.chiller.capacity_tons.getD 0 < c.chiller.capacity_tons.getD 0 →
          a.chiller.capacity_tons.getD 0 ≤ c.chiller.capacity_tons.getD 0)
    ∧ (∀ b, (rest.filter (fun c => decide (c.chiller.capacity_tons.getD 0 <
          best.chiller.capacity_tons.getD 0))).head? = some b →
        b.chiller.capacity_tons.getD 0 < best.chiller.capacity_tons.getD 0 ∧
        ∀ c ∈ rest, c.chiller.capacity_tons.getD 0 < best.chiller.capacity_tons.getD 0 →
          c.chiller.capacity_tons.getD 0 ≤ b.chiller.capacity_tons.getD 0)
    ∧ (∀ (store : List Chiller) (amb : ℤ),
        (find_candidates_with_tolerance store 100 amb (some 54) (some 44)).1 =
          [⟨1, "C98", some 98, some 105, some 54, some 44, some (3/5), none⟩,
           ⟨2, "C102", some 102, some 105, some 54, some 44, some (11/20), none⟩,
           ⟨3, "C115", some 115, some 105, some 54, some 44, some (29/50), none⟩] →
        (find_best_chillers store 100 amb (some 54) (some 44)).best_option = some best ∧
        (find_best_chillers store 100 amb (some 54) (some 44)).alternatives =
          (select_best_3_options (rank_candidates
            [⟨1, "C98", some 98, some 105, some 54, some 44, some (3/5), none⟩,
             ⟨2, "C102", some 102, some 105, some 54, some 44, some (11/20), none⟩,
             ⟨3, "C115", some 115, some 105, some 54, some 44, some (29/50), none⟩]
            100 (some 54) (some 44))).drop 1) :=
  select_best_3_options_spec
    [⟨1, "C98", some 98, some 105, some 54, some 44, some (3/5), none⟩,
     ⟨2, "C102", some 102, some 105, some 54, some 44, some (11/20), none⟩,
     ⟨3, "C115", some 115, some 105, some 54, some 44, some (29/50), none⟩]
    100 (some 54) (some 44) (List.cons_ne_nil _ _)

/-- When every tolerance level's query is empty, the widening loop falls
through to the maximum-tolerance default result. -/
theorem findWithTolAux_all_empty (store : List Chiller) (cap : ℚ) (amb : ℤ)
    (ewt lwt : Option ℚ) :
    ∀ tols : List ℚ, (∀ tol ∈ tols, get_chillers_by_criteria store cap amb ewt lwt tol = []) →
      findWithTolAux store cap amb ewt lwt tols =
        ([], 1/5, ⟨cap, amb, ewt, lwt, 1/5, 20, (cap * (4/5), cap * (6/5)), 0⟩) := by
  intro tols
  induction tols with
  | nil => intro _; rfl
  | cons t ts ih =>
    intro h
    have ht := h t (List.mem_cons_self t ts)
    have hunf : findWithTolAux store cap amb ewt lwt (t :: ts) =
        (if (get_chillers_by_criteria store cap amb ewt lwt t).isEmpty then
          findWithTolAux store cap amb ewt lwt ts
        else
          (get_chillers_by_criteria store cap amb ewt lwt t, t,
           ⟨cap, amb, ewt, lwt, t, t * 100, (cap * (1 - t), cap * (1 + t)),
            (get_chillers_by_criteria store cap amb ewt lwt t).length⟩)) := rfl
    rw [hunf, ht]
    exact ih (fun tol htol => h tol (List.mem_cons_of_mem t htol))

/-- C4.  When no tolerance level up to 20% yields a candidate at the
requested ambient, the search returns (without failing) a result with no
best option, no alternatives, no matches, `no_matches` set, and a fallback
list; the available ambients are exactly the distinct non-null ambients in
the store; a group is in the fallback list exactly when its ambient is an
available ambient at which the same widening search finds candidates, and
the group then carries that ambient, those candidates, the tolerance used
and the candidate count; every qualifying ambient contributes its group;
and when candidates do exist at the requested ambient no fallback list is
produced. -/
theorem find_best_chillers_fallback_spec (store : List Chiller) (cap : ℚ) (amb : ℤ)
    (ewt lwt : Option ℚ)
    (hempty : ∀ tol ∈ capacity_tolerance_levels,
      get_chillers_by_criteria store cap amb ewt lwt tol = []) :
    (find_best_chillers store cap amb ewt lwt).best_option = none
  ∧ (find_best_chillers store cap amb ewt lwt).alternatives = []
  ∧ (find_best_chillers store cap amb ewt lwt).all_matches = []
  ∧ (find_best_chillers store cap amb ewt lwt).no_matches = true
  ∧ (find_best_chillers store cap amb ewt lwt).fallback_available =
      some (try_fallback_ambients store cap ewt lwt)
  ∧ (∀ a : ℤ, a ∈ get_available_ambients store ↔ ∃ c ∈ store, c.ambient_f = some a)
  ∧ (get_available_ambients store).Nodup
  ∧ (∀ g : FallbackGroup, g ∈ try_fallback_ambients store cap ewt lwt ↔
      (g.ambient_f ∈ get_available_ambients store ∧
       (find_candidates_with_tolerance store cap g.ambient_f ewt lwt).1 ≠ [] ∧
       g = ⟨g.ambient_f, (find_candidates_with_tolerance store cap g.ambient_f ewt lwt).1,
            (find_candidates_with_tolerance store cap g.ambient_f ewt lwt).2.1,
            (find_candidates_with_tolerance store cap g.ambient_f ewt lwt).1.length⟩))
  ∧ (∀ a ∈ get_available_ambients store,
      (find_candidates_with_tolerance store cap a ewt lwt).1 ≠ [] →
      (⟨a, (find_candidates_with_tolerance store cap a ewt lwt).1,
        (find_candidates_with_tolerance store cap a ewt lwt).2.1,
        (find_candidates_with_tolerance store cap a ewt lwt).1.length⟩ : FallbackGroup) ∈
        try_fallback_ambients store cap ewt lwt)
  ∧ (∀ (store2 : List Chiller) (cap2 : ℚ) (amb2 : ℤ) (ewt2 lwt2 : Option ℚ),
      (find_candidates_with_tolerance store2 cap2 amb2 ewt2 lwt2).1 ≠ [] →
      (find_best_chillers store2 cap2 amb2 ewt2 lwt2).fallback_available = none) := by
  have hr : find_candidates_with_tolerance store cap amb ewt lwt =
      ([], 1/5, ⟨cap, amb, ewt, lwt, 1/5, 20, (cap * (4/5), cap * (6/5)), 0⟩) := by
    unfold find_candidates_with_tolerance
    exact findWithTolAux_all_empty store cap amb ewt lwt capacity_tolerance_levels hempty
  have hEmptyOfNe : ∀ (a : ℤ),
      (find_candidates_with_tolerance store cap a ewt lwt).1 ≠ [] →
      (find_candidates_with_tolerance store cap a ewt lwt).1.isEmpty = false := by
    intro a hne
    cases hL : (find_candidates_with_tolerance store cap a ewt lwt).1 with
    | nil => exact absurd hL hne
    | cons x xs => rfl
  refine ⟨?_, ?_, ?_, ?_, ?_, ?_, ?_, ?_, ?_, ?_⟩
  · unfold find_best_chillers; rw [hr]; rfl
  · unfold find_best_chillers; rw [hr]; rfl
  · unfold find_best_chillers; rw [hr]; rfl
  · unfold find_best_chillers; rw [hr]; rfl
  · unfold find_best_chillers; rw [hr]; rfl
  · intro a
    unfold get_available_ambients
    rw [(List.perm_insertionSort (fun x y => x ≤ y) _).mem_iff, List.mem_dedup,
      List.mem_filterMap]
  · unfold get_available_ambients
    exact (List.perm_insertionSort _ _).nodup_iff.mpr (List.nodup_dedup _)
  · intro g
    unfold try_fallback_ambients
    rw [List.mem_filterMap]
    constructor
    · rintro ⟨a, ha, hf⟩
      dsimp only at hf
      split at hf
      · exact Option.noConfusion hf
      · next hcond =>
        obtain rfl := Option.some_inj.mp hf
        refine ⟨ha, ?_, rfl⟩
        intro hnil
        apply hcond
        rw [hnil]
        rfl
    · rintro ⟨hmem, hne, hg⟩
      refine ⟨g.ambient_f, hmem, ?_⟩
      dsimp only
      rw [if_neg (by rw [hEmptyOfNe g.ambient_f hne]; exact Bool.false_ne_true)]
      exact congrArg some hg.symm
  · intro a hmem hne
    unfold try_fallback_ambients
    rw [List.mem_filterMap]
    refine ⟨a, hmem, ?_⟩
    dsimp only
    rw [if_neg (by rw [hEmptyOfNe a hne]; exact Bool.false_ne_true)]
  · intro store2 cap2 amb2 ewt2 lwt2 hne2
    unfold find_best_chillers
    dsimp only
    cases hL : (find_candidates_with_tolerance store2 cap2 amb2 ewt2 lwt2).1 with
    | nil => exact absurd hL hne2
    | cons x xs =>
      cases hRk : rank_candidates (x :: xs) cap2 ewt2 lwt2 with
      | nil =>
        exfalso
        have hlen := rank_candidates_length (x :: xs) cap2 ewt2 lwt2
        rw [hRk] at hlen
        simp at hlen
      | cons y ys =>
        rfl

/-- C4 (witness): the fallback specification instantiated on a store whose
single chiller sits at ambient 95 while the search requests ambient 105. -/
theorem find_best_chillers_fallback_spec_witness :
    (find_best_chillers [⟨1, "A", some 100, some 95, none, none, none, none⟩]
        100 105 none none).best_option = none
  ∧ (find_best_chillers [⟨1, "A", some 100, some 95, none, none, none, none⟩]
        100 105 none none).alternatives = []
  ∧ (find_best_chillers [⟨1, "A", some 100, some 95, none, none, none, none⟩]
        100 105 none none).all_matches = []
  ∧ (find_best_chillers [⟨1, "A", some 100, some 95, none, none, none, none⟩]
        100 105 none none).no_matches = true
  ∧ (find_best_chillers [⟨1, "A", some 100, some 95, none, none, none, none⟩]
        100 105 none none).fallback_available =
      some (try_fallback_ambients [⟨1, "A", some 100, some 95, none, none, none, none⟩]
        100 none none)
  ∧ (∀ a : ℤ, a ∈ get_available_ambients [⟨1, "A", some 100, some 95, none, none, none, none⟩] ↔
      ∃ c ∈ [(⟨1, "A", some 100, some 95, none, none, none, none⟩ : Chiller)],
        c.ambient_f = some a)
  ∧ (get_available_ambients [⟨1, "A", some 100, some 95, none, none, none, none⟩]).Nodup
  ∧ (∀ g : FallbackGroup,
      g ∈ try_fallback_ambients [⟨1, "A", some 100, some 95, none, none, none, none⟩]
        100 none none ↔
      (g.ambient_f ∈ get_available_ambients [⟨1, "A", some 100, some 95, none, none, none, none⟩] ∧
       (find_candidates_with_tolerance [⟨1, "A", some 100, some 95, none, none, none, none⟩]
         100 g.ambient_f none none).1 ≠ [] ∧
       g = ⟨g.ambient_f,
            (find_candidates_with_tolerance [⟨1, "A", some 100, some 95, none, none, none, none⟩]
              100 g.ambient_f none none).1,
            (find_candidates_with_tolerance [⟨1, "A", some 100, some 95, none, none, none, none⟩]
              100 g.ambient_f none none).2.1,
            (find_candidates_with_tolerance [⟨1, "A", some 100, some 95, none, none, none, none⟩]
              100 g.ambient_f none none).1.length⟩))
  ∧ (∀ a ∈ get_available_ambients [⟨1, "A", some 100, some 95, none, none, none, none⟩],
      (find_candidates_with_tolerance [⟨1, "A", some 100, some 95, none, none, none, none⟩]
        100 a none none).1 ≠ [] →
      (⟨a, (find_candidates_with_tolerance [⟨1, "A", some 100, some 95, none, none, none, none⟩]
          100 a none none).1,
        (find_candidates_with_tolerance [⟨1, "A", some 100, some 95, none, none, none, none⟩]
          100 a none none).2.1,
        (find_candidates_with_tolerance [⟨1, "A", some 100, some 95, none, none, none, none⟩]
          100 a none none).1.length⟩ : FallbackGroup) ∈
        try_fallback_ambients [⟨1, "A", some 100, some 95, none, none, none, none⟩] 100 none none)
  ∧ (∀ (store2 : List Chiller) (cap2 : ℚ) (amb2 : ℤ) (ewt2 lwt2 : Option ℚ),
      (find_candidates_with_tolerance store2 cap2 amb2 ewt2 lwt2).1 ≠ [] →
      (find_best_chillers store2 cap2 amb2 ewt2 lwt2).fallback_available = none) :=
  find_best_chillers_fallback_spec [⟨1, "A", some 100, some 95, none, none, none, none⟩]
    100 105 none none (by with_unfolding_all decide)

end Chilo
